import Mathlib

/-!
# Verification of the semantic-aware weighted bipartite matching evaluator

Shallow embedding of `src/utils/standardSemanticMetrics.ts` from the
causal-extraction evaluation framework, together with proofs of the
spec claims about it.

Modelling conventions:
* JavaScript `number` is modelled by `ℚ`.  All weights occurring in the
  pipeline are quarters (0, 0.5, 0.75, 1.0) and all similarity scores are
  ratios of small naturals, so the rational model is exact.
* JavaScript `Set<number>` objects are modelled by `List Nat` used only
  through membership, insertion and the derived filters.
* The TypeScript file contains an entity variant and a relationship
  variant of each pipeline stage whose bodies are identical up to the item
  type (`string` vs `CausalRelationship`) and the equality test used
  (`normalizeString` equality vs `areRelationshipsEqual`).  Each stage is
  embedded once, generically in the item type and the equality test, and
  the two TypeScript functions are recovered as the two instantiations.
* `JSON.stringify`/`JSON.parse` round-tripping of `CausalRelationship`
  values inside the relationship pipeline (the pairs produced by
  `evaluateRelationshipSemanticMatches` are stringified and parsed back by
  `buildRelationshipWeightMatrix`) is modelled as the identity, so the
  relationship pair lists carry `CausalRelationship` values directly.
* The match `type` field keeps the source's string values "exact",
  "semantic" and "partial".
-/

namespace CEE

/-- `CausalRelationship` from `types/index.ts` (the optional `location` and
`confidence` fields play no role in any matching code and are omitted). -/
structure CausalRelationship where
  cause : String
  effect : String
deriving DecidableEq, Repr, Inhabited

/-- The `predictions`/`goldData` payload of a `SentenceResult`, generic in
the item type (the other `SentenceResult` fields are unused by the
metrics code). -/
structure SentenceResultG (α : Type) where
  predictions : List α
  goldData : List α
deriving Repr

/-- `MatchPair` / `RelationshipMatchPair`, generic in the item type.
`type` holds one of the source strings "exact", "semantic", "partial". -/
structure MatchPairG (α : Type) where
  goldIndex : Nat
  predIndex : Nat
  weight : ℚ
  type : String
  goldItem : α
  predItem : α
deriving DecidableEq, Repr

/-- `WeightedMatchingResult`, generic in the item type. -/
structure WeightedMatchingResultG (α : Type) where
  totalWeight : ℚ
  matches' : List (MatchPairG α)
  unmatchedGoldIndices : List Nat
  unmatchedPredIndices : List Nat
deriving DecidableEq, Repr

/-- `SemanticMatchingResult`: the two lists of `(gold, predicted)` pairs
returned by a semantic classifier.  `partPairs` models the source field
`partialPairs`. -/
structure SemanticPairsG (α : Type) where
  semanticPairs : List (α × α)
  partPairs : List (α × α)
deriving DecidableEq, Repr

/-- `ExactMatchResult` / `RelationshipExactMatchResult`, generic. -/
structure ExactMatchResultG (α : Type) where
  exactMatches : List (MatchPairG α)
  unmatchedGold : List α
  unmatchedPredicted : List α
  goldIndices : List Nat
  predIndices : List Nat
deriving DecidableEq, Repr

/-- `StandardSemanticMetricsResult`, generic in the item type.  `part`
models the source field `partial`. -/
structure StandardSemanticMetricsResultG (α : Type) where
  precision : ℚ
  recall' : ℚ
  f1 : ℚ
  TPw : ℚ
  FPw : ℚ
  FNw : ℚ
  exact : List α
  semantic : List α
  part : List α
  noMatch : List α
deriving DecidableEq, Repr

/-- Structural model of JavaScript `trim()`: drop whitespace from both
ends of the character list. -/
def trimChars (l : List Char) : List Char :=
  ((l.dropWhile Char.isWhitespace).reverse.dropWhile Char.isWhitespace).reverse

/-- `normalizeString`: lower-case and trim surrounding whitespace
(`toLowerCase().trim()`), written on the character list so it evaluates
structurally. -/
def normalizeString (s : String) : String :=
  String.mk (trimChars (s.toList.map Char.toLower))

/-- `areRelationshipsEqual`: case-insensitive equality of cause and effect. -/
def areRelationshipsEqual (rel1 rel2 : CausalRelationship) : Bool :=
  normalizeString rel1.cause == normalizeString rel2.cause &&
    normalizeString rel1.effect == normalizeString rel2.effect

/-- Equality test used by the entity pipeline: `normalizeString` equality. -/
def entityEqv (a b : String) : Bool :=
  normalizeString a == normalizeString b

/-! ## Maximum-weight matching engine (`findMaxWeightMatching`,
`findMaxWeightRelationshipMatching`) -/

/-- One entry of `potentialMatches`: a matrix cell with positive weight. -/
structure Cand where
  goldIndex : Nat
  predIndex : Nat
  weight : ℚ
deriving DecidableEq, Repr

/-- The `potentialMatches` collection phase: every cell of the G×P matrix
with weight > 0, enumerated in row-major order (outer loop over gold rows,
inner loop over predicted columns). -/
def potentialMatches (w : Nat → Nat → ℚ) (G P : Nat) : List Cand :=
  ((List.range G).map (fun g =>
    (List.range P).filterMap (fun p =>
      if 0 < w g p then some ⟨g, p, w g p⟩ else none))).flatten

/-- Insertion step of the stable descending sort modelling
`potentialMatches.sort((a, b) => b.weight - a.weight)` (ECMAScript sort is
stable, so ties keep enumeration order). -/
def insDesc (c : Cand) : List Cand → List Cand
  | [] => [c]
  | d :: ds => if d.weight ≤ c.weight then c :: d :: ds else d :: insDesc c ds

/-- Stable sort by weight descending. -/
def sortCandsDesc : List Cand → List Cand
  | [] => []
  | c :: cs => insDesc c (sortCandsDesc cs)

/-- `type` derived from weight:
`weight === 1.0 ? 'exact' : weight === 0.75 ? 'semantic' : 'partial'`. -/
def weightTypeStr (q : ℚ) : String :=
  if q = 1 then "exact" else if q = 3/4 then "semantic" else "partial"

/-- Mutable state of the greedy selection loop: the `matchedGold` and
`matchedPred` sets and the `selectedMatches` array. -/
structure GreedyStateG (α : Type) where
  matchedGold : List Nat
  matchedPred : List Nat
  selected : List (MatchPairG α)

/-- The `MatchPair` pushed for an accepted candidate. -/
def mkPair {α : Type} [Inhabited α] (golds preds : List α) (c : Cand) :
    MatchPairG α :=
  ⟨c.goldIndex, c.predIndex, c.weight, weightTypeStr c.weight,
    golds.getD c.goldIndex default, preds.getD c.predIndex default⟩

/-- One iteration of the greedy loop: skip the candidate if its row or
column is already matched, else accept it. -/
def greedyStep {α : Type} [Inhabited α] (golds preds : List α)
    (st : GreedyStateG α) (c : Cand) : GreedyStateG α :=
  if st.matchedGold.contains c.goldIndex || st.matchedPred.contains c.predIndex
  then st
  else ⟨c.goldIndex :: st.matchedGold, c.predIndex :: st.matchedPred,
    st.selected ++ [mkPair golds preds c]⟩

/-- `findMaxWeightMatching` / `findMaxWeightRelationshipMatching`:
collect positive cells, sort by weight descending (stable), greedily select
under the 1:1 constraint, then report total weight and unmatched indices. -/
def findMaxWeightMatchingGen {α : Type} [Inhabited α]
    (w : Nat → Nat → ℚ) (golds preds : List α) : WeightedMatchingResultG α :=
  let cands := potentialMatches w golds.length preds.length
  let sorted := sortCandsDesc cands
  let st := sorted.foldl (greedyStep golds preds) ⟨[], [], []⟩
  ⟨(st.selected.map (·.weight)).sum, st.selected,
    (List.range golds.length).filter (fun i => !st.matchedGold.contains i),
    (List.range preds.length).filter (fun i => !st.matchedPred.contains i)⟩

/-- The entity instance `findMaxWeightMatching(weightMatrix, goldData,
predictions)`. -/
def findMaxWeightMatching (w : Nat → Nat → ℚ) (golds preds : List String) :
    WeightedMatchingResultG String :=
  findMaxWeightMatchingGen w golds preds

/-- The relationship instance `findMaxWeightRelationshipMatching`. -/
def findMaxWeightRelationshipMatching (w : Nat → Nat → ℚ)
    (golds preds : List CausalRelationship) :
    WeightedMatchingResultG CausalRelationship :=
  findMaxWeightMatchingGen w golds preds


/-! ## Exact-match prefilter (`calculateExactMatches`,
`calculateExactRelationshipMatches`) -/

/-- The inner loop of the prefilter: scan predicted indices `0..P-1` in
order and return the first index that is not yet in `matchedPred` and whose
item matches `target` under `eqv` (the source compares
`eqv(goldData[g], predictions[p])`). -/
def emFindPred {α : Type} [Inhabited α] (eqv : α → α → Bool) (preds : List α)
    (matchedPred : List Nat) (target : α) : Option Nat :=
  (List.range preds.length).find? (fun p =>
    !matchedPred.contains p && eqv target (preds.getD p default))

/-- Mutable state of the prefilter loops: the `exactMatches` array and the
`matchedGoldIndices` / `matchedPredIndices` sets. -/
structure EMState (α : Type) where
  pairs : List (MatchPairG α)
  matchedGold : List Nat
  matchedPred : List Nat

/-- One iteration of the outer gold loop: skip an already matched gold
index, otherwise take the first unmatched equal predicted item (if any)
and mark both used. -/
def emStep {α : Type} [Inhabited α] (eqv : α → α → Bool)
    (preds golds : List α) (st : EMState α) (g : Nat) : EMState α :=
  if st.matchedGold.contains g then st
  else
    match emFindPred eqv preds st.matchedPred (golds.getD g default) with
    | some p =>
        ⟨st.pairs ++ [⟨g, p, 1, "exact", golds.getD g default,
          preds.getD p default⟩], g :: st.matchedGold, p :: st.matchedPred⟩
    | none => st

/-- `calculateExactMatches` / `calculateExactRelationshipMatches`: greedy
first-match-wins pairing of equal items, then collection of the unmatched
items and their original indices in ascending order. -/
def calculateExactMatchesGen {α : Type} [Inhabited α] (eqv : α → α → Bool)
    (preds golds : List α) : ExactMatchResultG α :=
  let st := (List.range golds.length).foldl (emStep eqv preds golds) ⟨[], [], []⟩
  let gIdx := (List.range golds.length).filter (fun g => !st.matchedGold.contains g)
  let pIdx := (List.range preds.length).filter (fun p => !st.matchedPred.contains p)
  ⟨st.pairs, gIdx.map (fun g => golds.getD g default),
    pIdx.map (fun p => preds.getD p default), gIdx, pIdx⟩

/-- The entity instance `calculateExactMatches(predictions, goldData)`:
equality is `normalizeString` equality. -/
def calculateExactMatches (preds golds : List String) : ExactMatchResultG String :=
  calculateExactMatchesGen entityEqv preds golds

/-- The relationship instance `calculateExactRelationshipMatches`:
equality is `areRelationshipsEqual`. -/
def calculateExactRelationshipMatches
    (preds golds : List CausalRelationship) :
    ExactMatchResultG CausalRelationship :=
  calculateExactMatchesGen areRelationshipsEqual preds golds

/-! ## Weight matrix construction (`buildOptimizedWeightMatrix`,
`buildRelationshipWeightMatrix`)

The G×P array of numbers is modelled as a function `Nat → Nat → ℚ`
together with the dimensions implied by the pools; all reads and writes
performed by the source happen at indices inside the matrix. -/

/-- Functional update of one matrix cell. -/
def setCell (w : Nat → Nat → ℚ) (g p : Nat) (v : ℚ) : Nat → Nat → ℚ :=
  fun g' p' => if g' = g ∧ p' = p then v else w g' p'

/-- Index resolution used for classifier pairs:
`unmatchedIndices.findIndex(idx => eqv(pool[idx], item))` followed by
reading `unmatchedIndices` at that position, i.e. the first listed
original index whose pool item matches the pair component. -/
def resolveIdx {α : Type} [Inhabited α] (eqv : α → α → Bool) (pool : List α)
    (indices : List Nat) (item : α) : Option Nat :=
  indices.find? (fun idx => eqv (pool.getD idx default) item)

/-- `buildOptimizedWeightMatrix` / `buildRelationshipWeightMatrix`:
start from the zero matrix; write 1.0 at each prefiltered exact match;
write 0.75 at each resolved semantic pair; write 0.5 at each resolved
partial pair only when the cell is still below 0.75. -/
def buildWeightMatrixGen {α : Type} [Inhabited α] (eqv : α → α → Bool)
    (preds golds : List α) (exactMatches : List (MatchPairG α))
    (semPairs partPairs : List (α × α))
    (unmatchedGoldIndices unmatchedPredIndices : List Nat) : Nat → Nat → ℚ :=
  let w0 : Nat → Nat → ℚ := fun _ _ => 0
  let w1 := exactMatches.foldl
    (fun w m => setCell w m.goldIndex m.predIndex 1) w0
  let w2 := semPairs.foldl
    (fun w pr =>
      match resolveIdx eqv golds unmatchedGoldIndices pr.1,
        resolveIdx eqv preds unmatchedPredIndices pr.2 with
      | some g, some p => setCell w g p (3/4)
      | _, _ => w) w1
  partPairs.foldl
    (fun w pr =>
      match resolveIdx eqv golds unmatchedGoldIndices pr.1,
        resolveIdx eqv preds unmatchedPredIndices pr.2 with
      | some g, some p => if w g p < 3/4 then setCell w g p (1/2) else w
      | _, _ => w) w2

/-- The entity instance `buildOptimizedWeightMatrix(allPredictions,
allGoldData, exactMatches, semanticPairs, partialPairs,
unmatchedGoldIndices, unmatchedPredIndices)`. -/
def buildOptimizedWeightMatrix (preds golds : List String)
    (exactMatches : List (MatchPairG String))
    (semPairs partPairs : List (String × String))
    (ugi upi : List Nat) : Nat → Nat → ℚ :=
  buildWeightMatrixGen entityEqv preds golds exactMatches semPairs partPairs ugi upi

/-- The relationship instance `buildRelationshipWeightMatrix` (classifier
pairs carry the parsed `CausalRelationship` values, the
stringify/parse round trip being modelled as the identity). -/
def buildRelationshipWeightMatrix (preds golds : List CausalRelationship)
    (exactMatches : List (MatchPairG CausalRelationship))
    (semPairs partPairs : List (CausalRelationship × CausalRelationship))
    (ugi upi : List Nat) : Nat → Nat → ℚ :=
  buildWeightMatrixGen areRelationshipsEqual preds golds exactMatches
    semPairs partPairs ugi upi


/-! ## Heuristic relationship classifier
(`calculateRelationshipSimilarity`, `evaluateRelationshipSemanticMatches`) -/

/-- Tokenisation used for both cause and effect:
`normalizeString(s).split(/\\s+/).filter(w => w.length > 2)`.  Splitting on
every whitespace character can produce empty pieces where the regex merges
runs, but those are removed by the length filter, so the two agree. -/
def wordTokens (s : String) : List String :=
  ((normalizeString s).split (fun c => c.isWhitespace)).filter
    (fun w => 2 < w.length)

/-- `calculateWordOverlap`: Jaccard similarity of the two word sets
(`Set` deduplication modelled by `toFinset`; the intersection is the
source's `[...set1].filter(x => set2.has(x))`). -/
def calculateWordOverlap (words1 words2 : List String) : ℚ :=
  let s1 := (words1.map String.toLower).toFinset
  let s2 := (words2.map String.toLower).toFinset
  let inter := s1.filter (fun x => x ∈ s2)
  let uni := s1 ∪ s2
  if 0 < uni.card then (inter.card : ℚ) / (uni.card : ℚ) else 0

/-- `calculateRelationshipSimilarity`: average of the cause-token overlap
and the effect-token overlap. -/
def calculateRelationshipSimilarity (rel1 rel2 : CausalRelationship) : ℚ :=
  (calculateWordOverlap (wordTokens rel1.cause) (wordTokens rel2.cause) +
    calculateWordOverlap (wordTokens rel1.effect) (wordTokens rel2.effect)) / 2

/-- The inner loop over gold indices: track the best `(goldIndex,
similarity)` seen so far among indices not in `usedGold`; a strictly
greater similarity replaces the current best, so the first index achieving
the maximum wins. -/
def bestGold (preds golds : List CausalRelationship) (p : Nat)
    (usedGold : List Nat) : Option (Nat × ℚ) :=
  (List.range golds.length).foldl
    (fun best g =>
      if usedGold.contains g then best
      else
        let sim := calculateRelationshipSimilarity
          (preds.getD p default) (golds.getD g default)
        match best with
        | none => some (g, sim)
        | some b => if b.2 < sim then some (g, sim) else best)
    none

/-- State of the mockup classifier loop.  `semIdx`/`parIdx` record the
emitted `(goldIndex, predIndex)` pairs; the returned
`SemanticMatchingResult` is obtained by reading the pools at those
indices (see `evaluateRelationshipSemanticMatches`). -/
structure RelSemState where
  usedPred : List Nat
  usedGold : List Nat
  semIdx : List (Nat × Nat)
  parIdx : List (Nat × Nat)
deriving DecidableEq, Repr

/-- One iteration over a predicted index: find the best still-free gold
index; similarity > 0.7 emits a semantic pair, similarity > 0.4 a partial
pair, otherwise nothing. -/
def relSemStep (preds golds : List CausalRelationship) (st : RelSemState)
    (p : Nat) : RelSemState :=
  if st.usedPred.contains p then st
  else
    match bestGold preds golds p st.usedGold with
    | some best =>
        if 7/10 < best.2 then
          ⟨p :: st.usedPred, best.1 :: st.usedGold,
            st.semIdx ++ [(best.1, p)], st.parIdx⟩
        else if 2/5 < best.2 then
          ⟨p :: st.usedPred, best.1 :: st.usedGold,
            st.semIdx, st.parIdx ++ [(best.1, p)]⟩
        else st
    | none => st

/-- Index-level trace of `evaluateRelationshipSemanticMatches`: early
return on an empty pool, otherwise the greedy loop over predicted indices
in pool order. -/
def evalRelSemIdx (preds golds : List CausalRelationship) : RelSemState :=
  if preds.length = 0 ∨ golds.length = 0 then ⟨[], [], [], []⟩
  else (List.range preds.length).foldl (relSemStep preds golds) ⟨[], [], [], []⟩

/-- `evaluateRelationshipSemanticMatches` (mockup classifier): the emitted
pairs carry the gold and predicted relationships themselves
(`JSON.stringify` of each side, modelled as the identity). -/
def evaluateRelationshipSemanticMatches
    (preds golds : List CausalRelationship) :
    SemanticPairsG CausalRelationship :=
  let st := evalRelSemIdx preds golds
  ⟨st.semIdx.map (fun gp => (golds.getD gp.1 default, preds.getD gp.2 default)),
    st.parIdx.map (fun gp => (golds.getD gp.1 default, preds.getD gp.2 default))⟩

/-! ## The full metric pipeline (`calculateStandardSemanticMetrics`)

Both task branches have the same shape; they are embedded once, generic in
the item type, the equality test and the semantic classifier.  The
classifier argument `judge` abstracts the LLM call of
`evaluateSemanticMatches` for entities (any response, including the
try/catch fallback to empty pair lists, is some value of `judge`); the
relationship branch instantiates it with the deterministic mockup. -/

/-- `allPredictions`: concatenation of the per-sentence prediction lists. -/
def flattenPreds {α : Type} (srs : List (SentenceResultG α)) : List α :=
  (srs.map (fun r => r.predictions)).flatten

/-- `allGoldData`: concatenation of the per-sentence gold lists. -/
def flattenGolds {α : Type} (srs : List (SentenceResultG α)) : List α :=
  (srs.map (fun r => r.goldData)).flatten

/-- The classifier pair lists used by the pipeline: the judge is consulted
only when both unmatched pools are nonempty. -/
def pipelinePairs {α : Type} [Inhabited α] (eqv : α → α → Bool)
    (judge : List α → List α → SemanticPairsG α) (allPreds allGolds : List α) :
    SemanticPairsG α :=
  let em := calculateExactMatchesGen eqv allPreds allGolds
  if 0 < em.unmatchedPredicted.length ∧ 0 < em.unmatchedGold.length then
    judge em.unmatchedPredicted em.unmatchedGold
  else ⟨[], []⟩

/-- The weight matrix built by the pipeline (steps 1-3 of the non-empty
branch). -/
def metricsMatrix {α : Type} [Inhabited α] (eqv : α → α → Bool)
    (judge : List α → List α → SemanticPairsG α) (allPreds allGolds : List α) :
    Nat → Nat → ℚ :=
  let em := calculateExactMatchesGen eqv allPreds allGolds
  let pairs := pipelinePairs eqv judge allPreds allGolds
  buildWeightMatrixGen eqv allPreds allGolds em.exactMatches
    pairs.semanticPairs pairs.partPairs em.goldIndices em.predIndices

/-- `calculateStandardSemanticMetrics`, one task branch.  On an empty pool
it returns the zero metrics with every prediction in `noMatch`; otherwise
it runs the prefilter, the classifier, the matrix build and the matching,
and derives the conservation quantities and the categorised lists.
`precision = TPw / P || 0` (and likewise `recall`, `f1`) agrees with plain
rational division because `P > 0` in this branch and `x / 0 = 0` in `ℚ`
exactly where the JavaScript expression produces `NaN || 0`. -/
def calcMetricsCore {α : Type} [Inhabited α] (eqv : α → α → Bool)
    (judge : List α → List α → SemanticPairsG α) (allPreds allGolds : List α) :
    StandardSemanticMetricsResultG α :=
  let G := allGolds.length
  let P := allPreds.length
  if P = 0 ∨ G = 0 then
    ⟨0, 0, 0, 0, (P : ℚ), (G : ℚ), [], [], [], allPreds⟩
  else
    let mr := findMaxWeightMatchingGen
      (metricsMatrix eqv judge allPreds allGolds) allGolds allPreds
    let TPw := mr.totalWeight
    let FNw := (G : ℚ) - TPw
    let FPw := (P : ℚ) - TPw
    let precision := TPw / (P : ℚ)
    let recall' := TPw / (G : ℚ)
    let f1 := 2 * (precision * recall') / (precision + recall')
    ⟨precision, recall', f1, TPw, FPw, FNw,
      (mr.matches'.filter (fun m => m.type == "exact")).map (fun m => m.predItem),
      (mr.matches'.filter (fun m => m.type == "semantic")).map (fun m => m.predItem),
      (mr.matches'.filter (fun m => m.type == "partial")).map (fun m => m.predItem),
      mr.unmatchedPredIndices.map (fun i => allPreds.getD i default)⟩

/-- The entity branch of `calculateStandardSemanticMetrics`,
parameterised by the LLM judge. -/
def calculateStandardSemanticMetricsEntity
    (judge : List String → List String → SemanticPairsG String)
    (srs : List (SentenceResultG String)) :
    StandardSemanticMetricsResultG String :=
  calcMetricsCore entityEqv judge (flattenPreds srs) (flattenGolds srs)

/-- The relationship branch of `calculateStandardSemanticMetrics`: the
classifier is the deterministic mockup. -/
def calculateStandardSemanticMetricsRel
    (srs : List (SentenceResultG CausalRelationship)) :
    StandardSemanticMetricsResultG CausalRelationship :=
  calcMetricsCore areRelationshipsEqual
    (fun up ug => evaluateRelationshipSemanticMatches up ug)
    (flattenPreds srs) (flattenGolds srs)


/-! ## JSON extraction from LLM responses (`extractJsonFromResponse`)

The three regular expressions are embedded by their leftmost-match,
lazy-quantifier semantics on the character list of the response:
every pattern is anchored by a literal (a fence, a brace, a phrase), the
engine tries start positions left to right, and each lazy body extends to
the earliest position where the rest of the pattern matches.  The
recursions below scan start positions in exactly that order. -/

/-- `{` written via its code point (char constants used in string
scanning). -/
def lbrace : Char := Char.ofNat 123

/-- `}` written via its code point. -/
def rbrace : Char := Char.ofNat 125

/-- The double-quote character. -/
def dquote : Char := Char.ofNat 34

/-- The apostrophe character. -/
def apos : Char := Char.ofNat 39

/-- The backtick character. -/
def btick : Char := Char.ofNat 96

/-- The three-backtick fence delimiter of pattern (a). -/
def fenceChars : List Char := [btick, btick, btick]

/-- The optional `json` marker after the opening fence. -/
def jsonChars : List Char := [Char.ofNat 106, Char.ofNat 115, Char.ofNat 111, Char.ofNat 110]

/-- Whether a fence starts at the head of the list. -/
def fenceAt (cl : List Char) : Bool :=
  fenceChars.isPrefixOf cl

/-- The characters before the first fence occurrence (`none` when no fence
follows): the lazy body of `([\\s\\S]*?)\\s*` extended to the earliest
closing fence. -/
def takeUntilFence : List Char → Option (List Char)
  | [] => none
  | c :: cs =>
      if fenceAt (c :: cs) then some []
      else (takeUntilFence cs).map (fun l => c :: l)

/-- Pattern (a), `/```(?:json)?\\s*([\\s\\S]*?)\\s*```/` followed by the
source's `.trim()` of the captured group: at the first opening fence that
is closed later, the content between the fence (after an optional `json`
marker) and the earliest closing fence, trimmed.  The `\\s*` gaps of the
pattern only remove whitespace that `.trim()` removes again, so they are
absorbed by the final trim. -/
def codeBlockAux : List Char → Option String
  | [] => none
  | c :: cs =>
      if fenceAt (c :: cs) then
        let rest0 := cs.drop 2
        let rest1 := if jsonChars.isPrefixOf rest0 then rest0.drop 4 else rest0
        match takeUntilFence rest1 with
        | some content => some (String.mk (trimChars content))
        | none => codeBlockAux cs
      else codeBlockAux cs

/-- The characters before the first `}` (`none` when there is none). -/
def takeUntilRBrace : List Char → Option (List Char)
  | [] => none
  | c :: cs =>
      if c == rbrace then some []
      else (takeUntilRBrace cs).map (fun l => c :: l)

/-- The leftmost match of `/(\\{[\\s\\S]*?\\})/`: from the first `{` that is
followed by a `}`, up to the earliest such `}`, both included. -/
def braceFragmentAux : List Char → Option (List Char)
  | [] => none
  | c :: cs =>
      if c == lbrace then
        match takeUntilRBrace cs with
        | some mid => some (lbrace :: (mid ++ [rbrace]))
        | none => braceFragmentAux cs
      else braceFragmentAux cs

/-- Pattern (b) with the source's quote guard: the first brace fragment,
provided it contains a double quote, trimmed (the fragment starts with `{`
and ends with `}`, so the trim never removes anything). -/
def braceFragmentWithQuote (cl : List Char) : Option String :=
  match braceFragmentAux cl with
  | some frag =>
      if frag.contains dquote then some (String.mk (trimChars frag)) else none
  | none => none

/-- The alternation of known phrases, in the source's order, lower-cased
for the `/i` flag. -/
def phrases : List (List Char) :=
  ["here is".toList,
    "here".toList ++ [apos] ++ [Char.ofNat 115],
    "the output is".toList,
    "output:".toList,
    "result:".toList,
    "the result is".toList,
    "below is".toList]

/-- Case-insensitive phrase match at the head of the list; returns the
remainder after the first matching alternative. -/
def matchPhraseAt (cl : List Char) : Option (List Char) :=
  (phrases.find? (fun ph => ph.isPrefixOf (cl.map Char.toLower))).map
    (fun ph => cl.drop ph.length)

/-- Pattern (c), `/(?:Here is|...)[\\s\\S]*?(\\{[\\s\\S]*?\\})/i` with the
source's `.trim()`: at each start position in turn, match a phrase and
then the first following brace fragment; the first start position where
both succeed wins. -/
def phraseObjectAux : List Char → Option String
  | [] => none
  | c :: cs =>
      match matchPhraseAt (c :: cs) with
      | some rest =>
          match braceFragmentAux rest with
          | some frag => some (String.mk (trimChars frag))
          | none => phraseObjectAux cs
      | none => phraseObjectAux cs

/-- `extractJsonFromResponse`: try the code-block pattern, then the plain
brace fragment with the quote guard, then the phrase-anchored fragment;
`none` when all three fail. -/
def extractJsonFromResponse (response : String) : Option String :=
  let cl := response.toList
  match codeBlockAux cl with
  | some t => some t
  | none =>
      match braceFragmentWithQuote cl with
      | some t => some t
      | none => phraseObjectAux cl

/-! ## Parsing the semantic evaluation response
(`parseSemanticEvaluationResponse`)

`JSON.parse` is abstracted by an arbitrary partial parse function
`jp : String → Option Json` (`none` models a thrown `SyntaxError`); the
claims about the parser hold for every such function. -/

/-- JSON values as produced by `JSON.parse`. -/
inductive Json where
  | null : Json
  | bool : Bool → Json
  | num : ℚ → Json
  | str : String → Json
  | arr : List Json → Json
  | obj : List (String × Json) → Json
deriving Repr

/-- The JavaScript guard `jsonParsed && typeof jsonParsed === 'object'`:
among `JSON.parse` results, exactly the arrays and the (non-null)
objects. -/
def Json.isNonNullObject : Json → Bool
  | Json.arr _ => true
  | Json.obj _ => true
  | _ => false

/-- Property access `jsonParsed.key` on a parse result: a field lookup on
objects, `undefined` (modelled `none`) otherwise. -/
def Json.getField : Json → String → Option Json
  | Json.obj fields, key => (fields.find? (fun f => f.1 == key)).map (fun f => f.2)
  | _, _ => none

/-- `Array.isArray(x) ? x : []` applied to an optional property value. -/
def arrOrEmpty : Option Json → List Json
  | some (Json.arr xs) => xs
  | _ => []

/-- The result of `parseSemanticEvaluationResponse`; the element shape of
the two arrays is not validated by the source, so the lists carry raw
JSON values.  `partPairs` models the source field `partialPairs`. -/
structure SemanticMatchingResultJ where
  semanticPairs : List Json
  partPairs : List Json

/-- The value bound to `jsonParsed`: parse the extracted candidate,
falling back to parsing the whole response; `none` when every attempted
`JSON.parse` throws. -/
def parsedJson (jp : String → Option Json) (response : String) :
    Option Json :=
  match extractJsonFromResponse response with
  | some extracted =>
      match jp extracted with
      | some j => some j
      | none => jp response
  | none => jp response

/-- `parseSemanticEvaluationResponse`: extract a JSON candidate, parse it
(falling back to parsing the whole response), and read the two pair
arrays; every failure path degrades to empty lists inside the enclosing
try/catch. -/
def parseSemanticEvaluationResponse (jp : String → Option Json)
    (response : String) : SemanticMatchingResultJ :=
  match parsedJson jp response with
  | none => ⟨[], []⟩
  | some j =>
      if j.isNonNullObject then
        ⟨arrOrEmpty (j.getField "semantic_match_pairs"),
          arrOrEmpty (j.getField "partial_match_pairs")⟩
      else ⟨[], []⟩


/-! ## Lemmas about the matching engine -/

/-- Row-major order on candidates. -/
def candLt (a b : Cand) : Prop :=
  a.goldIndex < b.goldIndex ∨ (a.goldIndex = b.goldIndex ∧ a.predIndex < b.predIndex)

/-- Weight order used for sortedness (descending weights). -/
def wge (a b : Cand) : Prop := b.weight ≤ a.weight

/-- Invariant of the greedy selection loop: the matched index sets are
exactly the index sets of the selected pairs, and no index is selected
twice. -/
def GInv {α : Type} (st : GreedyStateG α) : Prop :=
  (∀ i, i ∈ st.matchedGold ↔ ∃ m ∈ st.selected, m.goldIndex = i) ∧
  (∀ i, i ∈ st.matchedPred ↔ ∃ m ∈ st.selected, m.predIndex = i) ∧
  (st.selected.map (fun m => m.goldIndex)).Nodup ∧
  (st.selected.map (fun m => m.predIndex)).Nodup

/-- The final state of the greedy loop inside `findMaxWeightMatchingGen`. -/
def finalState {α : Type} [Inhabited α] (w : Nat → Nat → ℚ)
    (golds preds : List α) : GreedyStateG α :=
  (sortCandsDesc (potentialMatches w golds.length preds.length)).foldl
    (greedyStep golds preds) ⟨[], [], []⟩

/-- The spec wording of the greedy scan, carried out on the list of
accepted candidates itself: a candidate is accepted if and only if neither
its gold row nor its predicted column was used by a previously accepted
candidate. -/
def specScan : List Cand → List Cand → List Cand
  | acc, [] => acc
  | acc, c :: cs =>
      if acc.all (fun d => d.goldIndex != c.goldIndex && d.predIndex != c.predIndex)
      then specScan (acc ++ [c]) cs
      else specScan acc cs

/-- The four admissible cell values. -/
def cellOK (q : ℚ) : Prop := q = 0 ∨ q = 1/2 ∨ q = 3/4 ∨ q = 1

/-- Loop invariant of the prefilter after processing gold indices `< k`. -/
def EMInv {α : Type} [Inhabited α] (eqv : α → α → Bool)
    (preds golds : List α) (k : Nat) (st : EMState α) : Prop :=
  (∀ m ∈ st.pairs, m.goldIndex < k ∧ m.predIndex < preds.length ∧
    eqv (golds.getD m.goldIndex default) (preds.getD m.predIndex default) = true ∧
    m.weight = 1 ∧ m.type = "exact" ∧
    m.goldItem = golds.getD m.goldIndex default ∧
    m.predItem = preds.getD m.predIndex default) ∧
  (st.pairs.map (fun m => m.goldIndex)).Pairwise (· < ·) ∧
  (∀ i, i ∈ st.matchedGold ↔ ∃ m ∈ st.pairs, m.goldIndex = i) ∧
  (∀ i, i ∈ st.matchedPred ↔ ∃ m ∈ st.pairs, m.predIndex = i) ∧
  (st.pairs.map (fun m => m.predIndex)).Nodup ∧
  (∀ m ∈ st.pairs, ∀ q, q < m.predIndex →
    eqv (golds.getD m.goldIndex default) (preds.getD q default) = true →
    ∃ m2 ∈ st.pairs, m2.predIndex = q ∧ m2.goldIndex < m.goldIndex) ∧
  (∀ g, g < k → (∀ m ∈ st.pairs, m.goldIndex ≠ g) →
    ∀ q, q < preds.length →
    eqv (golds.getD g default) (preds.getD q default) = true →
    ∃ m2 ∈ st.pairs, m2.predIndex = q ∧ m2.goldIndex < g)

/-- The final loop state inside `calculateExactMatchesGen`. -/
def emFinal {α : Type} [Inhabited α] (eqv : α → α → Bool)
    (preds golds : List α) : EMState α :=
  (List.range golds.length).foldl (emStep eqv preds golds) ⟨[], [], []⟩

/-- Similarity of predicted index `p` against gold index `g`. -/
def relSim (preds golds : List CausalRelationship) (p g : Nat) : ℚ :=
  calculateRelationshipSimilarity (preds.getD p default) (golds.getD g default)

/-- The body of the inner argmax loop of `bestGold`. -/
def bgStep (preds golds : List CausalRelationship) (p : Nat)
    (usedGold : List Nat) (best : Option (Nat × ℚ)) (g : Nat) :
    Option (Nat × ℚ) :=
  if usedGold.contains g then best
  else
    match best with
    | none => some (g, relSim preds golds p g)
    | some b =>
        if b.2 < relSim preds golds p g then some (g, relSim preds golds p g)
        else best

/-- Loop invariant of the mockup classifier after processing predicted
indices `< k`. -/
def RSInv (preds golds : List CausalRelationship) (k : Nat)
    (st : RelSemState) : Prop :=
  (∀ gp ∈ st.semIdx ++ st.parIdx, gp.1 < golds.length ∧ gp.2 < k) ∧
  ((st.semIdx ++ st.parIdx).map (fun gp => gp.1)).Nodup ∧
  ((st.semIdx ++ st.parIdx).map (fun gp => gp.2)).Nodup ∧
  (∀ i, i ∈ st.usedGold ↔ ∃ gp ∈ st.semIdx ++ st.parIdx, gp.1 = i) ∧
  (∀ i, i ∈ st.usedPred ↔ ∃ gp ∈ st.semIdx ++ st.parIdx, gp.2 = i) ∧
  (∀ gp ∈ st.semIdx, 7/10 < relSim preds golds gp.2 gp.1) ∧
  (∀ gp ∈ st.parIdx, 2/5 < relSim preds golds gp.2 gp.1 ∧
    relSim preds golds gp.2 gp.1 ≤ 7/10) ∧
  (∀ gp ∈ st.semIdx ++ st.parIdx, ∀ g2, g2 < golds.length →
    (∀ gp2 ∈ st.semIdx ++ st.parIdx, gp2.2 < gp.2 → gp2.1 ≠ g2) →
    relSim preds golds gp.2 g2 ≤ relSim preds golds gp.2 gp.1) ∧
  (∀ p2, p2 < k → (∀ gp ∈ st.semIdx ++ st.parIdx, gp.2 ≠ p2) →
    ∀ g2, g2 < golds.length →
    (∀ gp ∈ st.semIdx ++ st.parIdx, gp.2 < p2 → gp.1 ≠ g2) →
    relSim preds golds p2 g2 ≤ 2/5)

/-- Whether the list starts with the given character. -/
def startsWith (ch : Char) : List Char → Bool
  | [] => false
  | c :: _ => c == ch

/-- The first position whose suffix satisfies `f`. -/
def firstPos (f : List Char → Bool) (cl : List Char) : Option Nat :=
  (List.range cl.length).find? (fun i => f (cl.drop i))

/-- The positional description of the leftmost lazy match of
`/(\\{[\\s\\S]*?\\})/`: from the first `{` through the first `}` after it. -/
def spec_fragment (cl : List Char) : Option (List Char) :=
  match firstPos (startsWith lbrace) cl with
  | none => none
  | some i =>
      match firstPos (startsWith rbrace) (cl.drop (i + 1)) with
      | none => none
      | some k => some ((cl.drop i).take (k + 2))

/-- The positional description of pattern (a): at the first opening fence,
the content (after an optional `json` marker) up to the next fence,
trimmed. -/
def spec_codeBlock (cl : List Char) : Option String :=
  match firstPos fenceAt cl with
  | none => none
  | some i =>
      match firstPos fenceAt
          (if jsonChars.isPrefixOf (cl.drop (i + 3))
            then (cl.drop (i + 3)).drop 4 else cl.drop (i + 3)) with
      | none => none
      | some j => some (String.mk (trimChars
          ((if jsonChars.isPrefixOf (cl.drop (i + 3))
            then (cl.drop (i + 3)).drop 4 else cl.drop (i + 3)).take j)))

/-- The phrase-anchored fragment available at a given start position:
a phrase must match there and a brace fragment must follow. -/
def phraseFragAt (cl : List Char) : Option (List Char) :=
  (matchPhraseAt cl).bind spec_fragment

/-- The positional description of pattern (c): the first start position
where a phrase followed by a brace fragment matches wins, and the
fragment is returned trimmed. -/
def spec_phraseObject (cl : List Char) : Option String :=
  match firstPos (fun l => (phraseFragAt l).isSome) cl with
  | none => none
  | some i =>
      (phraseFragAt (cl.drop i)).map (fun frag => String.mk (trimChars frag))

/-- Pattern (b) described positionally: the brace fragment of the whole
response, kept only when it contains a double quote, trimmed. -/
def spec_braceQuote (cl : List Char) : Option String :=
  match spec_fragment cl with
  | some frag =>
      if frag.contains dquote then some (String.mk (trimChars frag)) else none
  | none => none

/-- The positional description of the whole extraction routine: the three
patterns in order, first success wins. -/
def extractJson_spec (cl : List Char) : Option String :=
  match spec_codeBlock cl with
  | some t => some t
  | none =>
      match spec_braceQuote cl with
      | some t => some t
      | none => spec_phraseObject cl

/-- Modelled from the spec: "the first top-level \x7b...\x7d object" — from
the first opening brace, the text up to the closing brace that returns
the nesting depth to zero (balanced-brace scan). -/
def balancedScan : List Char → Nat → List Char → Option (List Char)
  | [], _, _ => none
  | c :: cs, depth, acc =>
      if c == lbrace then balancedScan cs (depth + 1) (acc ++ [c])
      else if c == rbrace then
        if depth == 1 then some (acc ++ [c])
        else balancedScan cs (depth - 1) (acc ++ [c])
      else balancedScan cs depth (acc ++ [c])

/-- Modelled from the spec: the first top-level brace-delimited object
appearing anywhere in the text. -/
def firstTopLevelObject : List Char → Option (List Char)
  | [] => none
  | c :: cs =>
      if c == lbrace then balancedScan (c :: cs) 0 []
      else firstTopLevelObject cs

theorem insDesc_perm (c : Cand) (l : List Cand) :
    List.Perm (insDesc c l) (c :: l) := by
  induction l with
  | nil => simp [insDesc]
  | cons d ds ih =>
      rw [insDesc]
      split
      · exact List.Perm.refl _
      · exact (ih.cons d).trans (List.Perm.swap c d ds)

theorem sortCandsDesc_perm (l : List Cand) :
    List.Perm (sortCandsDesc l) l := by
  induction l with
  | nil => exact List.Perm.refl _
  | cons c cs ih => exact (insDesc_perm c (sortCandsDesc cs)).trans (ih.cons c)

theorem insDesc_pairwise {c : Cand} {l : List Cand}
    (h : l.Pairwise wge) : (insDesc c l).Pairwise wge := by
  induction l with
  | nil => simp [insDesc]
  | cons d ds ih =>
      rw [insDesc]
      rcases List.pairwise_cons.mp h with ⟨hd, hds⟩
      split
      case isTrue hle =>
        refine List.Pairwise.cons ?_ (List.Pairwise.cons hd hds)
        intro x hx
        rcases List.mem_cons.mp hx with rfl | hx2
        · exact hle
        · exact le_trans (hd x hx2) hle
      case isFalse hgt =>
        refine List.Pairwise.cons ?_ (ih hds)
        intro x hx
        rcases List.mem_cons.mp ((insDesc_perm c ds).mem_iff.mp hx) with rfl | hx2
        · exact le_of_lt (lt_of_not_le hgt)
        · exact hd x hx2

theorem sortCandsDesc_pairwise (l : List Cand) :
    (sortCandsDesc l).Pairwise wge := by
  induction l with
  | nil => simp [sortCandsDesc]
  | cons c cs ih => exact insDesc_pairwise ih

theorem insDesc_filter (c : Cand) (l : List Cand) (q : ℚ) :
    (insDesc c l).filter (fun d => decide (d.weight = q)) =
      (c :: l).filter (fun d => decide (d.weight = q)) := by
  induction l with
  | nil => rfl
  | cons d ds ih =>
      rw [insDesc]
      split
      case isTrue hle => rfl
      case isFalse hgt =>
        have hlt : c.weight < d.weight := lt_of_not_le hgt
        simp only [List.filter_cons, ih]
        by_cases hd : d.weight = q
        · have hc : ¬ c.weight = q := by
            intro h; rw [h, hd] at hlt; exact lt_irrefl q hlt
          simp [hc, hd]
        · by_cases hc : c.weight = q <;> simp [hc, hd]

theorem sortCandsDesc_filter (l : List Cand) (q : ℚ) :
    (sortCandsDesc l).filter (fun d => decide (d.weight = q)) =
      l.filter (fun d => decide (d.weight = q)) := by
  induction l with
  | nil => rfl
  | cons c cs ih =>
      rw [sortCandsDesc, insDesc_filter]
      simp only [List.filter_cons, ih]

theorem mem_potentialMatches {w : Nat → Nat → ℚ} {G P : Nat} {c : Cand} :
    c ∈ potentialMatches w G P ↔
      c.goldIndex < G ∧ c.predIndex < P ∧ 0 < w c.goldIndex c.predIndex ∧
        c.weight = w c.goldIndex c.predIndex := by
  constructor
  · intro hmem
    rw [potentialMatches, List.mem_flatten] at hmem
    obtain ⟨l, hl, hcl⟩ := hmem
    obtain ⟨g, hg, rfl⟩ := List.mem_map.mp hl
    obtain ⟨p, hp, hpc⟩ := List.mem_filterMap.mp hcl
    rw [List.mem_range] at hg hp
    split at hpc
    case isTrue hw => cases hpc; exact ⟨hg, hp, hw, rfl⟩
    case isFalse => exact absurd hpc (by simp)
  · rintro ⟨h1, h2, h3, h4⟩
    rw [potentialMatches, List.mem_flatten]
    refine ⟨_, List.mem_map.mpr ⟨c.goldIndex, List.mem_range.mpr h1, rfl⟩, ?_⟩
    rw [List.mem_filterMap]
    refine ⟨c.predIndex, List.mem_range.mpr h2, ?_⟩
    rw [if_pos h3]
    obtain ⟨cg, cp, cw⟩ := c
    simp only at h4 ⊢
    rw [h4]

theorem potentialMatches_goldIndex {w : Nat → Nat → ℚ} {P : Nat} {g : Nat}
    {c : Cand}
    (h : c ∈ (List.range P).filterMap (fun p =>
      if 0 < w g p then some ⟨g, p, w g p⟩ else none)) : c.goldIndex = g := by
  rcases List.mem_filterMap.mp h with ⟨p, -, hp⟩
  split at hp
  · cases hp; rfl
  · exact absurd hp (by simp)

theorem potentialMatches_pairwise (w : Nat → Nat → ℚ) (G P : Nat) :
    (potentialMatches w G P).Pairwise candLt := by
  rw [potentialMatches, List.pairwise_flatten]
  constructor
  · intro l hl
    rcases List.mem_map.mp hl with ⟨g, -, rfl⟩
    refine List.Pairwise.filterMap _ ?_ (List.pairwise_lt_range P)
    intro p p' hpp b hb b' hb'
    rw [Option.mem_def] at hb hb'
    split at hb
    case isFalse => exact absurd hb (by simp)
    case isTrue =>
      split at hb'
      case isFalse => exact absurd hb' (by simp)
      case isTrue =>
        cases hb; cases hb'
        exact Or.inr ⟨rfl, hpp⟩
  · rw [List.pairwise_map]
    refine (List.pairwise_lt_range G).imp ?_
    intro g g' hgg x hx y hy
    have hxg := potentialMatches_goldIndex hx
    have hyg := potentialMatches_goldIndex hy
    exact Or.inl (hxg ▸ hyg ▸ hgg)


theorem gInv_init {α : Type} : GInv (⟨[], [], []⟩ : GreedyStateG α) := by
  refine ⟨?_, ?_, ?_, ?_⟩ <;> simp

theorem gInv_step {α : Type} [Inhabited α] (golds preds : List α)
    {st : GreedyStateG α} (c : Cand) (h : GInv st) :
    GInv (greedyStep golds preds st c) := by
  obtain ⟨hg, hp, ng, np⟩ := h
  rw [greedyStep]
  split
  · exact ⟨hg, hp, ng, np⟩
  case isFalse hcond =>
    have hgold : c.goldIndex ∉ st.matchedGold := by
      intro hmem; exact hcond (by simp [hmem])
    have hpred : c.predIndex ∉ st.matchedPred := by
      intro hmem; exact hcond (by simp [hmem])
    refine ⟨?_, ?_, ?_, ?_⟩
    · intro i
      constructor
      · intro hi
        rcases List.mem_cons.mp hi with rfl | hi2
        · exact ⟨mkPair golds preds c, by simp, rfl⟩
        · obtain ⟨m, hm, hmi⟩ := (hg i).mp hi2
          exact ⟨m, by simp [hm], hmi⟩
      · rintro ⟨m, hm, rfl⟩
        rcases List.mem_append.mp hm with hm1 | hm2
        · exact List.mem_cons_of_mem _ ((hg _).mpr ⟨m, hm1, rfl⟩)
        · rw [List.mem_singleton] at hm2
          subst hm2
          exact List.mem_cons_self _ _
    · intro i
      constructor
      · intro hi
        rcases List.mem_cons.mp hi with rfl | hi2
        · exact ⟨mkPair golds preds c, by simp, rfl⟩
        · obtain ⟨m, hm, hmi⟩ := (hp i).mp hi2
          exact ⟨m, by simp [hm], hmi⟩
      · rintro ⟨m, hm, rfl⟩
        rcases List.mem_append.mp hm with hm1 | hm2
        · exact List.mem_cons_of_mem _ ((hp _).mpr ⟨m, hm1, rfl⟩)
        · rw [List.mem_singleton] at hm2
          subst hm2
          exact List.mem_cons_self _ _
    · rw [List.map_append, List.nodup_append]
      refine ⟨ng, by simp, ?_⟩
      intro x hx hx2
      obtain ⟨m, hm, hmi⟩ := List.mem_map.mp hx
      simp only [List.map_cons, List.map_nil, List.mem_singleton] at hx2
      subst hx2
      exact hgold ((hg _).mpr ⟨m, hm, hmi⟩)
    · rw [List.map_append, List.nodup_append]
      refine ⟨np, by simp, ?_⟩
      intro x hx hx2
      obtain ⟨m, hm, hmi⟩ := List.mem_map.mp hx
      simp only [List.map_cons, List.map_nil, List.mem_singleton] at hx2
      subst hx2
      exact hpred ((hp _).mpr ⟨m, hm, hmi⟩)

theorem gInv_foldl {α : Type} [Inhabited α] (golds preds : List α)
    (cs : List Cand) (st : GreedyStateG α) (h : GInv st) :
    GInv (cs.foldl (greedyStep golds preds) st) := by
  induction cs generalizing st with
  | nil => exact h
  | cons c cs ih => exact ih _ (gInv_step golds preds c h)

theorem foldl_selected_subset {α : Type} [Inhabited α] (golds preds : List α)
    (cs : List Cand) (st : GreedyStateG α) :
    ∀ m ∈ (cs.foldl (greedyStep golds preds) st).selected,
      m ∈ st.selected ∨ ∃ c ∈ cs, m = mkPair golds preds c := by
  induction cs generalizing st with
  | nil => intro m hm; exact Or.inl hm
  | cons c cs ih =>
      intro m hm
      rcases ih (greedyStep golds preds st c) m hm with hin | ⟨c2, hc2, rfl⟩
      · rw [greedyStep] at hin
        split at hin
        · exact Or.inl hin
        · rcases List.mem_append.mp hin with h1 | h2
          · exact Or.inl h1
          · rw [List.mem_singleton] at h2
            exact Or.inr ⟨c, List.mem_cons_self _ _, h2⟩
      · exact Or.inr ⟨c2, List.mem_cons_of_mem _ hc2, rfl⟩

theorem findMax_matches_def {α : Type} [Inhabited α] (w : Nat → Nat → ℚ)
    (golds preds : List α) :
    (findMaxWeightMatchingGen w golds preds).matches' =
      (finalState w golds preds).selected := rfl

theorem findMax_totalWeight_def {α : Type} [Inhabited α] (w : Nat → Nat → ℚ)
    (golds preds : List α) :
    (findMaxWeightMatchingGen w golds preds).totalWeight =
      ((finalState w golds preds).selected.map (fun m => m.weight)).sum := rfl

theorem findMax_unmatchedGold_def {α : Type} [Inhabited α] (w : Nat → Nat → ℚ)
    (golds preds : List α) :
    (findMaxWeightMatchingGen w golds preds).unmatchedGoldIndices =
      (List.range golds.length).filter
        (fun i => !(finalState w golds preds).matchedGold.contains i) := rfl

theorem findMax_unmatchedPred_def {α : Type} [Inhabited α] (w : Nat → Nat → ℚ)
    (golds preds : List α) :
    (findMaxWeightMatchingGen w golds preds).unmatchedPredIndices =
      (List.range preds.length).filter
        (fun i => !(finalState w golds preds).matchedPred.contains i) := rfl

theorem finalState_inv {α : Type} [Inhabited α] (w : Nat → Nat → ℚ)
    (golds preds : List α) : GInv (finalState w golds preds) :=
  gInv_foldl golds preds _ _ gInv_init

/-- Every selected pair arises from a positive matrix cell. -/
theorem findMax_matches_source {α : Type} [Inhabited α] (w : Nat → Nat → ℚ)
    (golds preds : List α) :
    ∀ m ∈ (findMaxWeightMatchingGen w golds preds).matches',
      ∃ c ∈ potentialMatches w golds.length preds.length,
        m = mkPair golds preds c := by
  intro m hm
  rw [findMax_matches_def] at hm
  rcases foldl_selected_subset golds preds _ _ m hm with h0 | ⟨c, hc, rfl⟩
  · simp at h0
  · exact ⟨c, (sortCandsDesc_perm _).mem_iff.mp hc, rfl⟩

/-- The 1:1 and unmatched-disjointness properties of the matching result. -/
theorem findMax_one_one {α : Type} [Inhabited α] (w : Nat → Nat → ℚ)
    (golds preds : List α) :
    ((findMaxWeightMatchingGen w golds preds).matches'.map
      (fun m => m.goldIndex)).Nodup ∧
    ((findMaxWeightMatchingGen w golds preds).matches'.map
      (fun m => m.predIndex)).Nodup ∧
    (∀ i ∈ (findMaxWeightMatchingGen w golds preds).unmatchedGoldIndices,
      ∀ m ∈ (findMaxWeightMatchingGen w golds preds).matches', m.goldIndex ≠ i) ∧
    (∀ i ∈ (findMaxWeightMatchingGen w golds preds).unmatchedPredIndices,
      ∀ m ∈ (findMaxWeightMatchingGen w golds preds).matches', m.predIndex ≠ i) := by
  obtain ⟨hg, hp, ng, np⟩ := finalState_inv w golds preds
  refine ⟨ng, np, ?_, ?_⟩
  · intro i hi m hm hmi
    rw [findMax_unmatchedGold_def] at hi
    have := List.of_mem_filter hi
    simp only [Bool.not_eq_true', Bool.not_eq_false] at this
    have hnotmem : i ∉ (finalState w golds preds).matchedGold := by
      intro hmem
      simp [hmem] at this
    exact hnotmem ((hg i).mpr ⟨m, hm, hmi⟩)
  · intro i hi m hm hmi
    rw [findMax_unmatchedPred_def] at hi
    have := List.of_mem_filter hi
    have hnotmem : i ∉ (finalState w golds preds).matchedPred := by
      intro hmem
      simp [hmem] at this
    exact hnotmem ((hp i).mpr ⟨m, hm, hmi⟩)


theorem greedy_foldl_eq_specScan {α : Type} [Inhabited α]
    (golds preds : List α) :
    ∀ (cs : List Cand) (st : GreedyStateG α) (acc : List Cand),
      st.selected = acc.map (mkPair golds preds) →
      (∀ i, i ∈ st.matchedGold ↔ ∃ d ∈ acc, d.goldIndex = i) →
      (∀ i, i ∈ st.matchedPred ↔ ∃ d ∈ acc, d.predIndex = i) →
      (cs.foldl (greedyStep golds preds) st).selected =
        (specScan acc cs).map (mkPair golds preds) := by
  intro cs
  induction cs with
  | nil =>
      intro st acc h1 _ _
      exact h1
  | cons c cs ih =>
      intro st acc h1 h2 h3
      rw [List.foldl_cons, specScan]
      by_cases hacc : acc.all
          (fun d => d.goldIndex != c.goldIndex && d.predIndex != c.predIndex) = true
      · have hfree : ∀ d ∈ acc, d.goldIndex ≠ c.goldIndex ∧ d.predIndex ≠ c.predIndex := by
          intro d hd
          have := List.all_eq_true.mp hacc d hd
          simpa using this
        have hnog : c.goldIndex ∉ st.matchedGold := by
          intro hmem
          obtain ⟨d, hd, hdi⟩ := (h2 _).mp hmem
          exact (hfree d hd).1 hdi
        have hnop : c.predIndex ∉ st.matchedPred := by
          intro hmem
          obtain ⟨d, hd, hdi⟩ := (h3 _).mp hmem
          exact (hfree d hd).2 hdi
        have hstep : greedyStep golds preds st c =
            ⟨c.goldIndex :: st.matchedGold, c.predIndex :: st.matchedPred,
              st.selected ++ [mkPair golds preds c]⟩ := by
          rw [greedyStep, if_neg]
          simp [hnog, hnop]
        rw [if_pos hacc, hstep]
        apply ih
        · rw [h1, List.map_append, List.map_singleton]
        · intro i
          constructor
          · intro hi
            rcases List.mem_cons.mp hi with rfl | hi2
            · exact ⟨c, by simp, rfl⟩
            · obtain ⟨d, hd, hdi⟩ := (h2 i).mp hi2
              exact ⟨d, by simp [hd], hdi⟩
          · rintro ⟨d, hd, rfl⟩
            rcases List.mem_append.mp hd with hd1 | hd2
            · exact List.mem_cons_of_mem _ ((h2 _).mpr ⟨d, hd1, rfl⟩)
            · rw [List.mem_singleton] at hd2
              subst hd2
              exact List.mem_cons_self _ _
        · intro i
          constructor
          · intro hi
            rcases List.mem_cons.mp hi with rfl | hi2
            · exact ⟨c, by simp, rfl⟩
            · obtain ⟨d, hd, hdi⟩ := (h3 i).mp hi2
              exact ⟨d, by simp [hd], hdi⟩
          · rintro ⟨d, hd, rfl⟩
            rcases List.mem_append.mp hd with hd1 | hd2
            · exact List.mem_cons_of_mem _ ((h3 _).mpr ⟨d, hd1, rfl⟩)
            · rw [List.mem_singleton] at hd2
              subst hd2
              exact List.mem_cons_self _ _
      · have hconf : ∃ d ∈ acc, d.goldIndex = c.goldIndex ∨ d.predIndex = c.predIndex := by
          have hall : ¬ ∀ d ∈ acc,
              d.goldIndex ≠ c.goldIndex ∧ d.predIndex ≠ c.predIndex := by
            intro hfa
            apply hacc
            rw [List.all_eq_true]
            intro d hd
            simp [(hfa d hd).1, (hfa d hd).2]
          push_neg at hall
          obtain ⟨d, hd, hdc⟩ := hall
          refine ⟨d, hd, ?_⟩
          by_cases hg3 : d.goldIndex = c.goldIndex
          · exact Or.inl hg3
          · exact Or.inr (hdc hg3)
        have hskip : greedyStep golds preds st c = st := by
          rw [greedyStep, if_pos]
          obtain ⟨d, hd, hdc⟩ := hconf
          rcases hdc with hdg | hdp
          · have : c.goldIndex ∈ st.matchedGold := (h2 _).mpr ⟨d, hd, hdg⟩
            simp [this]
          · have : c.predIndex ∈ st.matchedPred := (h3 _).mpr ⟨d, hd, hdp⟩
            simp [this]
        rw [if_neg hacc, hskip]
        exact ih st acc h1 h2 h3


theorem findMax_type_eq {α : Type} [Inhabited α] (w : Nat → Nat → ℚ)
    (golds preds : List α) :
    ∀ m ∈ (findMaxWeightMatchingGen w golds preds).matches',
      m.type = weightTypeStr m.weight := by
  intro m hm
  obtain ⟨c, -, rfl⟩ := findMax_matches_source w golds preds m hm
  rfl

/-- C3: in the result of `findMaxWeightMatching` (and of
`findMaxWeightRelationshipMatching`), for every weight-matrix input, each
`goldIndex` value and each `predIndex` value occurs in at most one
accepted `MatchPair`, and no index listed in `unmatchedGoldIndices` or
`unmatchedPredIndices` occurs in any accepted `MatchPair`. -/
theorem claim_C3 :
    (∀ (w : Nat → Nat → ℚ) (golds preds : List String),
      ((findMaxWeightMatching w golds preds).matches'.map
        (fun m => m.goldIndex)).Nodup ∧
      ((findMaxWeightMatching w golds preds).matches'.map
        (fun m => m.predIndex)).Nodup ∧
      (∀ i ∈ (findMaxWeightMatching w golds preds).unmatchedGoldIndices,
        ∀ m ∈ (findMaxWeightMatching w golds preds).matches',
          m.goldIndex ≠ i) ∧
      (∀ i ∈ (findMaxWeightMatching w golds preds).unmatchedPredIndices,
        ∀ m ∈ (findMaxWeightMatching w golds preds).matches',
          m.predIndex ≠ i)) ∧
    (∀ (w : Nat → Nat → ℚ) (golds preds : List CausalRelationship),
      ((findMaxWeightRelationshipMatching w golds preds).matches'.map
        (fun m => m.goldIndex)).Nodup ∧
      ((findMaxWeightRelationshipMatching w golds preds).matches'.map
        (fun m => m.predIndex)).Nodup ∧
      (∀ i ∈ (findMaxWeightRelationshipMatching w golds preds).unmatchedGoldIndices,
        ∀ m ∈ (findMaxWeightRelationshipMatching w golds preds).matches',
          m.goldIndex ≠ i) ∧
      (∀ i ∈ (findMaxWeightRelationshipMatching w golds preds).unmatchedPredIndices,
        ∀ m ∈ (findMaxWeightRelationshipMatching w golds preds).matches',
          m.predIndex ≠ i)) :=
  ⟨fun w golds preds => findMax_one_one w golds preds,
    fun w golds preds => findMax_one_one w golds preds⟩

/-- C4: `findMaxWeightMatching` enumerates every positive matrix cell as a
candidate in row-major order, sorts the candidates by weight descending
with ties kept in enumeration order (stable sort), scans them accepting a
candidate iff neither its gold row nor its predicted column was used by a
previously accepted candidate, derives the pair type from the weight
(1.0 exact, 0.75 semantic, 0.5 partial), and returns the sum of the
accepted weights as `totalWeight`. -/
theorem claim_C4 (w : Nat → Nat → ℚ) (golds preds : List String) :
    (∀ c : Cand,
      c ∈ potentialMatches w golds.length preds.length ↔
        c.goldIndex < golds.length ∧ c.predIndex < preds.length ∧
          0 < w c.goldIndex c.predIndex ∧
          c.weight = w c.goldIndex c.predIndex) ∧
    (potentialMatches w golds.length preds.length).Pairwise candLt ∧
    List.Perm (sortCandsDesc (potentialMatches w golds.length preds.length))
      (potentialMatches w golds.length preds.length) ∧
    (sortCandsDesc (potentialMatches w golds.length preds.length)).Pairwise wge ∧
    (∀ q : ℚ,
      (sortCandsDesc (potentialMatches w golds.length preds.length)).filter
          (fun d => decide (d.weight = q)) =
        (potentialMatches w golds.length preds.length).filter
          (fun d => decide (d.weight = q))) ∧
    (findMaxWeightMatching w golds preds).matches' =
      (specScan [] (sortCandsDesc
        (potentialMatches w golds.length preds.length))).map
        (mkPair golds preds) ∧
    (∀ m ∈ (findMaxWeightMatching w golds preds).matches',
      (m.weight = 1 → m.type = "exact") ∧
      (m.weight = 3/4 → m.type = "semantic") ∧
      (m.weight = 1/2 → m.type = "partial")) ∧
    (findMaxWeightMatching w golds preds).totalWeight =
      ((findMaxWeightMatching w golds preds).matches'.map
        (fun m => m.weight)).sum := by
  refine ⟨fun c => mem_potentialMatches,
    potentialMatches_pairwise w golds.length preds.length,
    sortCandsDesc_perm _,
    sortCandsDesc_pairwise _,
    fun q => sortCandsDesc_filter _ q,
    ?_, ?_, rfl⟩
  · exact greedy_foldl_eq_specScan golds preds _ ⟨[], [], []⟩ [] rfl
      (by simp) (by simp)
  · intro m hm
    have ht := findMax_type_eq w golds preds m hm
    refine ⟨?_, ?_, ?_⟩ <;> intro hw <;> rw [ht, hw, weightTypeStr] <;> norm_num


/-! ## Lemmas about the weight matrix builder -/

theorem setCell_same (w : Nat → Nat → ℚ) (g p : Nat) (v : ℚ) :
    setCell w g p v g p = v := by
  rw [setCell, if_pos ⟨rfl, rfl⟩]

theorem setCell_other {g' p' g p : Nat} (w : Nat → Nat → ℚ) (v : ℚ)
    (h : ¬(g = g' ∧ p = p')) : setCell w g' p' v g p = w g p := by
  rw [setCell, if_neg h]

theorem setCell_mem {S : ℚ → Prop} {w : Nat → Nat → ℚ} {a b : Nat} {v : ℚ}
    (hv : S v) (hw : ∀ g p, S (w g p)) : ∀ g p, S (setCell w a b v g p) := by
  intro g p
  rw [setCell]
  split
  · exact hv
  · exact hw g p

theorem foldl_cells_pres {β : Type} {S : (Nat → Nat → ℚ) → Prop}
    (step : (Nat → Nat → ℚ) → β → Nat → Nat → ℚ)
    (hstep : ∀ w x, S w → S (step w x)) :
    ∀ (l : List β) (w : Nat → Nat → ℚ), S w → S (l.foldl step w) := by
  intro l
  induction l with
  | nil => intro w hw; exact hw
  | cons x xs ih => intro w hw; exact ih _ (hstep w x hw)

theorem buildWeightMatrixGen_cells {α : Type} [Inhabited α]
    (eqv : α → α → Bool) (preds golds : List α) (em : List (MatchPairG α))
    (sp pp : List (α × α)) (ugi upi : List Nat) :
    ∀ g p, cellOK (buildWeightMatrixGen eqv preds golds em sp pp ugi upi g p) := by
  rw [buildWeightMatrixGen]
  apply foldl_cells_pres (S := fun w => ∀ g p, cellOK (w g p))
  · intro w x hw
    rcases x with ⟨a, b⟩
    dsimp only
    rcases h1 : resolveIdx eqv golds ugi a with - | g1 <;>
      rcases h2 : resolveIdx eqv preds upi b with - | p1 <;> simp only
    · exact hw
    · exact hw
    · exact hw
    · split
      · exact setCell_mem (Or.inr (Or.inl rfl)) hw
      · exact hw
  · apply foldl_cells_pres (S := fun w => ∀ g p, cellOK (w g p))
    · intro w x hw
      rcases x with ⟨a, b⟩
      dsimp only
      rcases h1 : resolveIdx eqv golds ugi a with - | g1 <;>
        rcases h2 : resolveIdx eqv preds upi b with - | p1 <;> simp only
      · exact hw
      · exact hw
      · exact hw
      · exact setCell_mem (Or.inr (Or.inr (Or.inl rfl))) hw
    · apply foldl_cells_pres (S := fun w => ∀ g p, cellOK (w g p))
      · intro w m hw
        exact setCell_mem (Or.inr (Or.inr (Or.inr rfl))) hw
      · intro g p
        exact Or.inl rfl


theorem resolveIdx_mem {α : Type} [Inhabited α] {eqv : α → α → Bool}
    {pool : List α} {indices : List Nat} {item : α} {i : Nat}
    (h : resolveIdx eqv pool indices item = some i) : i ∈ indices :=
  List.mem_of_find?_eq_some h

/-- Step 1 never lowers a cell that already holds 1. -/
theorem foldl_exact_pres {α : Type} (em : List (MatchPairG α))
    (w : Nat → Nat → ℚ) (g p : Nat) (h : w g p = 1) :
    (em.foldl (fun w m => setCell w m.goldIndex m.predIndex 1) w) g p = 1 := by
  refine foldl_cells_pres (S := fun w => w g p = 1) _ ?_ em w h
  intro w m hw
  rw [setCell]
  split
  · rfl
  · exact hw

/-- After step 1 every prefiltered exact cell holds 1. -/
theorem foldl_exact_hit {α : Type} (em : List (MatchPairG α))
    (w : Nat → Nat → ℚ) {g p : Nat}
    (h : ∃ m ∈ em, m.goldIndex = g ∧ m.predIndex = p) :
    (em.foldl (fun w m => setCell w m.goldIndex m.predIndex 1) w) g p = 1 := by
  induction em generalizing w with
  | nil =>
      obtain ⟨m, hm, -⟩ := h
      exact absurd hm (List.not_mem_nil m)
  | cons m ms ih =>
      rw [List.foldl_cons]
      obtain ⟨m2, hm2, hgp⟩ := h
      rcases List.mem_cons.mp hm2 with rfl | hmem
      · refine foldl_exact_pres ms _ g p ?_
        obtain ⟨hg, hp⟩ := hgp
        subst hg; subst hp
        exact setCell_same w m2.goldIndex m2.predIndex 1
      · exact ih _ ⟨m2, hmem, hgp⟩

/-- Step 2 leaves every row outside `unmatchedGoldIndices` unchanged. -/
theorem foldl_sem_skip {α : Type} [Inhabited α] (eqv : α → α → Bool)
    (preds golds : List α) (sp : List (α × α)) (ugi upi : List Nat)
    (w : Nat → Nat → ℚ) (g p : Nat) (hg : g ∉ ugi) :
    (sp.foldl
      (fun w pr =>
        match resolveIdx eqv golds ugi pr.1,
          resolveIdx eqv preds upi pr.2 with
        | some g, some p => setCell w g p (3/4)
        | _, _ => w) w) g p = w g p := by
  refine foldl_cells_pres (S := fun w2 => w2 g p = w g p) _ ?_ sp w rfl
  intro w2 pr hw2
  rcases h1 : resolveIdx eqv golds ugi pr.1 with - | g1 <;>
    rcases h2 : resolveIdx eqv preds upi pr.2 with - | p1 <;> simp only
  · exact hw2
  · exact hw2
  · exact hw2
  · rw [setCell_other _ _ ?_]
    · exact hw2
    · rintro ⟨rfl, -⟩
      exact hg (resolveIdx_mem h1)

/-- Step 3 leaves every row outside `unmatchedGoldIndices` unchanged. -/
theorem foldl_par_skip {α : Type} [Inhabited α] (eqv : α → α → Bool)
    (preds golds : List α) (pp : List (α × α)) (ugi upi : List Nat)
    (w : Nat → Nat → ℚ) (g p : Nat) (hg : g ∉ ugi) :
    (pp.foldl
      (fun w pr =>
        match resolveIdx eqv golds ugi pr.1,
          resolveIdx eqv preds upi pr.2 with
        | some g, some p => if w g p < 3/4 then setCell w g p (1/2) else w
        | _, _ => w) w) g p = w g p := by
  refine foldl_cells_pres (S := fun w2 => w2 g p = w g p) _ ?_ pp w rfl
  intro w2 pr hw2
  rcases h1 : resolveIdx eqv golds ugi pr.1 with - | g1 <;>
    rcases h2 : resolveIdx eqv preds upi pr.2 with - | p1 <;> simp only
  · exact hw2
  · exact hw2
  · exact hw2
  · split
    · rw [setCell_other _ _ ?_]
      · exact hw2
      · rintro ⟨rfl, -⟩
        exact hg (resolveIdx_mem h1)
    · exact hw2

/-- Step 2 never lowers a cell that already holds 3/4. -/
theorem foldl_sem_pres {α : Type} [Inhabited α] (eqv : α → α → Bool)
    (preds golds : List α) (sp : List (α × α)) (ugi upi : List Nat)
    (w : Nat → Nat → ℚ) (g p : Nat) (h : w g p = 3/4) :
    (sp.foldl
      (fun w pr =>
        match resolveIdx eqv golds ugi pr.1,
          resolveIdx eqv preds upi pr.2 with
        | some g, some p => setCell w g p (3/4)
        | _, _ => w) w) g p = 3/4 := by
  refine foldl_cells_pres (S := fun w2 => w2 g p = 3/4) _ ?_ sp w h
  intro w2 pr hw2
  rcases h1 : resolveIdx eqv golds ugi pr.1 with - | g1 <;>
    rcases h2 : resolveIdx eqv preds upi pr.2 with - | p1 <;> simp only
  · exact hw2
  · exact hw2
  · exact hw2
  · rw [setCell]
    split
    · rfl
    · exact hw2

/-- A cell resolved by some semantic pair holds 3/4 after step 2. -/
theorem foldl_sem_hit {α : Type} [Inhabited α] (eqv : α → α → Bool)
    (preds golds : List α) (sp : List (α × α)) (ugi upi : List Nat)
    (w : Nat → Nat → ℚ) {a b : α} {g p : Nat}
    (hmem : (a, b) ∈ sp)
    (h1 : resolveIdx eqv golds ugi a = some g)
    (h2 : resolveIdx eqv preds upi b = some p) :
    (sp.foldl
      (fun w pr =>
        match resolveIdx eqv golds ugi pr.1,
          resolveIdx eqv preds upi pr.2 with
        | some g, some p => setCell w g p (3/4)
        | _, _ => w) w) g p = 3/4 := by
  induction sp generalizing w with
  | nil => exact absurd hmem (List.not_mem_nil _)
  | cons x xs ih =>
      rw [List.foldl_cons]
      rcases List.mem_cons.mp hmem with rfl | hx
      · refine foldl_sem_pres eqv preds golds xs ugi upi _ g p ?_
        simp only [h1, h2]
        exact setCell_same w g p (3/4)
      · exact ih _ hx

/-- Step 3 never changes a cell that already holds 3/4. -/
theorem foldl_par_pres34 {α : Type} [Inhabited α] (eqv : α → α → Bool)
    (preds golds : List α) (pp : List (α × α)) (ugi upi : List Nat)
    (w : Nat → Nat → ℚ) (g p : Nat) (h : w g p = 3/4) :
    (pp.foldl
      (fun w pr =>
        match resolveIdx eqv golds ugi pr.1,
          resolveIdx eqv preds upi pr.2 with
        | some g, some p => if w g p < 3/4 then setCell w g p (1/2) else w
        | _, _ => w) w) g p = 3/4 := by
  refine foldl_cells_pres (S := fun w2 => w2 g p = 3/4) _ ?_ pp w h
  intro w2 pr hw2
  rcases h1 : resolveIdx eqv golds ugi pr.1 with - | g1 <;>
    rcases h2 : resolveIdx eqv preds upi pr.2 with - | p1 <;> simp only
  · exact hw2
  · exact hw2
  · exact hw2
  · split
    case isTrue hlt =>
      rw [setCell]
      split
      case isTrue heq =>
        obtain ⟨rfl, rfl⟩ := heq
        rw [hw2] at hlt
        exact absurd hlt (lt_irrefl _)
      case isFalse => exact hw2
    case isFalse => exact hw2


/-! ## Lemmas about the exact-match prefilter -/

theorem range_find?_some {n : Nat} {f : Nat → Bool} {p : Nat}
    (h : (List.range n).find? f = some p) :
    p < n ∧ f p = true ∧ ∀ q, q < p → f q = false := by
  rw [List.find?_eq_some_iff_getElem] at h
  obtain ⟨hf, i, hi, hgi, hmin⟩ := h
  rw [List.getElem_range] at hgi
  subst hgi
  rw [List.length_range] at hi
  refine ⟨hi, hf, ?_⟩
  intro q hq
  have := hmin q hq
  rw [List.getElem_range] at this
  simpa using this

theorem emFindPred_some {α : Type} [Inhabited α] {eqv : α → α → Bool}
    {preds : List α} {matchedPred : List Nat} {target : α} {p : Nat}
    (h : emFindPred eqv preds matchedPred target = some p) :
    p < preds.length ∧ p ∉ matchedPred ∧
      eqv target (preds.getD p default) = true ∧
      ∀ q, q < p → q ∉ matchedPred →
        eqv target (preds.getD q default) = false := by
  obtain ⟨h1, h2, h3⟩ := range_find?_some h
  have h2' := h2
  rw [Bool.and_eq_true] at h2'
  obtain ⟨h2a, h2b⟩ := h2'
  refine ⟨h1, by simpa using h2a, h2b, ?_⟩
  intro q hq hqm
  have := h3 q hq
  rw [Bool.and_eq_false_iff] at this
  rcases this with hc | he
  · exact absurd (by simpa using hc) (by simpa using hqm)
  · exact he

theorem emFindPred_none {α : Type} [Inhabited α] {eqv : α → α → Bool}
    {preds : List α} {matchedPred : List Nat} {target : α}
    (h : emFindPred eqv preds matchedPred target = none) :
    ∀ q, q < preds.length → q ∉ matchedPred →
      eqv target (preds.getD q default) = false := by
  intro q hq hqm
  have := List.find?_eq_none.mp h q (List.mem_range.mpr hq)
  rw [Bool.and_eq_true] at this
  by_cases he : eqv target (preds.getD q default) = true
  · exact absurd ⟨by simpa using hqm, he⟩ this
  · exact Bool.eq_false_iff.mpr he

theorem emInv_init {α : Type} [Inhabited α] (eqv : α → α → Bool)
    (preds golds : List α) : EMInv eqv preds golds 0 ⟨[], [], []⟩ := by
  refine ⟨?_, ?_, ?_, ?_, ?_, ?_, ?_⟩ <;> simp

theorem emInv_step {α : Type} [Inhabited α] {eqv : α → α → Bool}
    {preds golds : List α} {k : Nat} {st : EMState α}
    (h : EMInv eqv preds golds k st) :
    EMInv eqv preds golds (k + 1) (emStep eqv preds golds st k) := by
  obtain ⟨h1, h2, h3, h4, h5, h6, h7⟩ := h
  have hnotg : ¬ st.matchedGold.contains k = true := by
    intro hc
    obtain ⟨m, hm, hmi⟩ := (h3 k).mp (by simpa using hc)
    exact absurd (hmi ▸ (h1 m hm).1) (lt_irrefl k)
  rw [emStep, if_neg hnotg]
  rcases hfind : emFindPred eqv preds st.matchedPred (golds.getD k default)
      with - | p
  · -- no equal unmatched predicted item: the state is unchanged
    show EMInv eqv preds golds (k + 1) st
    have hnone := emFindPred_none hfind
    refine ⟨?_, h2, h3, h4, h5, h6, ?_⟩
    · intro m hm
      obtain ⟨a, b, c, d, e, f, g2⟩ := h1 m hm
      exact ⟨Nat.lt_succ_of_lt a, b, c, d, e, f, g2⟩
    · intro g hg hgun q hq he
      rcases Nat.lt_succ_iff_lt_or_eq.mp hg with hg2 | rfl
      · exact h7 g hg2 hgun q hq he
      · -- the current gold index found no partner, so q must be matched
        by_cases hqm : q ∈ st.matchedPred
        · obtain ⟨m2, hm2, hm2i⟩ := (h4 q).mp hqm
          exact ⟨m2, hm2, hm2i, (h1 m2 hm2).1⟩
        · rw [hnone q hq hqm] at he
          exact absurd he (by simp)
  · -- a partner p was found: one pair is appended
    obtain ⟨hp, hpm, hpe, hpmin⟩ := emFindPred_some hfind
    set newPair : MatchPairG α :=
      ⟨k, p, 1, "exact", golds.getD k default, preds.getD p default⟩ with hnew
    show EMInv eqv preds golds (k + 1)
      ⟨st.pairs ++ [newPair], k :: st.matchedGold, p :: st.matchedPred⟩
    have hmemnew : ∀ m ∈ st.pairs ++ [newPair],
        m ∈ st.pairs ∨ m = newPair := by
      intro m hm
      rcases List.mem_append.mp hm with h | h
      · exact Or.inl h
      · exact Or.inr (List.mem_singleton.mp h)
    refine ⟨?_, ?_, ?_, ?_, ?_, ?_, ?_⟩
    · intro m hm
      rcases hmemnew m hm with h | rfl
      · obtain ⟨a, b, c, d, e, f, g2⟩ := h1 m h
        exact ⟨Nat.lt_succ_of_lt a, b, c, d, e, f, g2⟩
      · exact ⟨Nat.lt_succ_self k, hp, hpe, rfl, rfl, rfl, rfl⟩
    · rw [List.map_append, List.pairwise_append]
      refine ⟨h2, by simp, ?_⟩
      intro x hx y hy
      obtain ⟨m, hm, hmi⟩ := List.mem_map.mp hx
      simp only [List.map_cons, List.map_nil, List.mem_singleton] at hy
      subst hy
      exact hmi ▸ (h1 m hm).1
    · intro i
      constructor
      · intro hi
        rcases List.mem_cons.mp hi with rfl | hi2
        · exact ⟨newPair, by simp, rfl⟩
        · obtain ⟨m, hm, hmi⟩ := (h3 i).mp hi2
          exact ⟨m, by simp [hm], hmi⟩
      · rintro ⟨m, hm, rfl⟩
        rcases hmemnew m hm with h | rfl
        · exact List.mem_cons_of_mem _ ((h3 _).mpr ⟨m, h, rfl⟩)
        · exact List.mem_cons_self _ _
    · intro i
      constructor
      · intro hi
        rcases List.mem_cons.mp hi with rfl | hi2
        · exact ⟨newPair, by simp, rfl⟩
        · obtain ⟨m, hm, hmi⟩ := (h4 i).mp hi2
          exact ⟨m, by simp [hm], hmi⟩
      · rintro ⟨m, hm, rfl⟩
        rcases hmemnew m hm with h | rfl
        · exact List.mem_cons_of_mem _ ((h4 _).mpr ⟨m, h, rfl⟩)
        · exact List.mem_cons_self _ _
    · rw [List.map_append, List.nodup_append]
      refine ⟨h5, by simp, ?_⟩
      intro x hx hx2
      obtain ⟨m, hm, hmi⟩ := List.mem_map.mp hx
      simp only [List.map_cons, List.map_nil, List.mem_singleton] at hx2
      subst hx2
      exact hpm ((h4 _).mpr ⟨m, hm, hmi⟩)
    · intro m hm q hq he
      rcases hmemnew m hm with h | rfl
      · obtain ⟨m2, hm2, hm2a, hm2b⟩ := h6 m h q hq he
        exact ⟨m2, by simp [hm2], hm2a, hm2b⟩
      · -- the new pair used the first unmatched equal predicted item
        by_cases hqm : q ∈ st.matchedPred
        · obtain ⟨m2, hm2, hm2i⟩ := (h4 q).mp hqm
          exact ⟨m2, by simp [hm2], hm2i, (h1 m2 hm2).1⟩
        · rw [hpmin q hq hqm] at he
          exact absurd he (by simp)
    · intro g hg hgun q hq he
      rcases Nat.lt_succ_iff_lt_or_eq.mp hg with hg2 | rfl
      · have hgun2 : ∀ m ∈ st.pairs, m.goldIndex ≠ g := by
          intro m hm
          exact hgun m (by simp [hm])
        obtain ⟨m2, hm2, hm2a, hm2b⟩ := h7 g hg2 hgun2 q hq he
        exact ⟨m2, by simp [hm2], hm2a, hm2b⟩
      · exact absurd rfl (hgun newPair (by simp))

theorem emInv_foldl {α : Type} [Inhabited α] (eqv : α → α → Bool)
    (preds golds : List α) (n : Nat) :
    EMInv eqv preds golds n
      ((List.range n).foldl (emStep eqv preds golds) ⟨[], [], []⟩) := by
  induction n with
  | zero => exact emInv_init eqv preds golds
  | succ n ih =>
      rw [List.range_succ, List.foldl_append, List.foldl_cons, List.foldl_nil]
      exact emInv_step ih


theorem emFinal_inv {α : Type} [Inhabited α] (eqv : α → α → Bool)
    (preds golds : List α) :
    EMInv eqv preds golds golds.length (emFinal eqv preds golds) :=
  emInv_foldl eqv preds golds golds.length

theorem calcEM_pairs_def {α : Type} [Inhabited α] (eqv : α → α → Bool)
    (preds golds : List α) :
    (calculateExactMatchesGen eqv preds golds).exactMatches =
      (emFinal eqv preds golds).pairs := rfl

theorem calcEM_goldIndices_def {α : Type} [Inhabited α] (eqv : α → α → Bool)
    (preds golds : List α) :
    (calculateExactMatchesGen eqv preds golds).goldIndices =
      (List.range golds.length).filter
        (fun g => !(emFinal eqv preds golds).matchedGold.contains g) := rfl

theorem calcEM_predIndices_def {α : Type} [Inhabited α] (eqv : α → α → Bool)
    (preds golds : List α) :
    (calculateExactMatchesGen eqv preds golds).predIndices =
      (List.range preds.length).filter
        (fun p => !(emFinal eqv preds golds).matchedPred.contains p) := rfl

theorem calcEM_unmatchedGold_def {α : Type} [Inhabited α] (eqv : α → α → Bool)
    (preds golds : List α) :
    (calculateExactMatchesGen eqv preds golds).unmatchedGold =
      (calculateExactMatchesGen eqv preds golds).goldIndices.map
        (fun g => golds.getD g default) := rfl

theorem calcEM_unmatchedPred_def {α : Type} [Inhabited α] (eqv : α → α → Bool)
    (preds golds : List α) :
    (calculateExactMatchesGen eqv preds golds).unmatchedPredicted =
      (calculateExactMatchesGen eqv preds golds).predIndices.map
        (fun p => preds.getD p default) := rfl

/-- Membership in the unmatched gold index list. -/
theorem calcEM_mem_goldIndices {α : Type} [Inhabited α] (eqv : α → α → Bool)
    (preds golds : List α) (g : Nat) :
    g ∈ (calculateExactMatchesGen eqv preds golds).goldIndices ↔
      g < golds.length ∧
        ∀ m ∈ (calculateExactMatchesGen eqv preds golds).exactMatches,
          m.goldIndex ≠ g := by
  obtain ⟨-, -, h3, -, -, -, -⟩ := emFinal_inv eqv preds golds
  rw [calcEM_goldIndices_def, List.mem_filter, List.mem_range,
    calcEM_pairs_def]
  constructor
  · rintro ⟨hg, hc⟩
    refine ⟨hg, ?_⟩
    intro m hm hmi
    have : g ∈ (emFinal eqv preds golds).matchedGold := (h3 g).mpr ⟨m, hm, hmi⟩
    simp [this] at hc
  · rintro ⟨hg, hm⟩
    refine ⟨hg, ?_⟩
    by_cases hmem : g ∈ (emFinal eqv preds golds).matchedGold
    · obtain ⟨m, hm2, hmi⟩ := (h3 g).mp hmem
      exact absurd hmi (hm m hm2)
    · simp [hmem]

/-- Membership in the unmatched predicted index list. -/
theorem calcEM_mem_predIndices {α : Type} [Inhabited α] (eqv : α → α → Bool)
    (preds golds : List α) (p : Nat) :
    p ∈ (calculateExactMatchesGen eqv preds golds).predIndices ↔
      p < preds.length ∧
        ∀ m ∈ (calculateExactMatchesGen eqv preds golds).exactMatches,
          m.predIndex ≠ p := by
  obtain ⟨-, -, -, h4, -, -, -⟩ := emFinal_inv eqv preds golds
  rw [calcEM_predIndices_def, List.mem_filter, List.mem_range,
    calcEM_pairs_def]
  constructor
  · rintro ⟨hp, hc⟩
    refine ⟨hp, ?_⟩
    intro m hm hmi
    have : p ∈ (emFinal eqv preds golds).matchedPred := (h4 p).mpr ⟨m, hm, hmi⟩
    simp [this] at hc
  · rintro ⟨hp, hm⟩
    refine ⟨hp, ?_⟩
    by_cases hmem : p ∈ (emFinal eqv preds golds).matchedPred
    · obtain ⟨m, hm2, hmi⟩ := (h4 p).mp hmem
      exact absurd hmi (hm m hm2)
    · simp [hmem]

/-- The prefiltered exact gold indices are disjoint from the unmatched
gold index list passed on to the weight matrix builder. -/
theorem calcEM_gold_disjoint {α : Type} [Inhabited α] (eqv : α → α → Bool)
    (preds golds : List α) :
    ∀ m ∈ (calculateExactMatchesGen eqv preds golds).exactMatches,
      m.goldIndex ∉ (calculateExactMatchesGen eqv preds golds).goldIndices := by
  intro m hm hmem
  rw [calcEM_mem_goldIndices] at hmem
  exact hmem.2 m hm rfl

theorem map_getD_range {α : Type} [Inhabited α] (l : List α) :
    (List.range l.length).map (fun i => l.getD i default) = l := by
  induction l with
  | nil => rfl
  | cons x xs ih =>
      rw [List.length_cons, List.range_succ_eq_map, List.map_cons, List.map_map]
      have hcomp : ((fun i => (x :: xs).getD i default) ∘ Nat.succ) =
          (fun i => xs.getD i default) := by
        funext i
        rfl
      rw [hcomp, ih]
      rfl

theorem entityEqv_eq {a b : String} :
    entityEqv a b = true ↔ normalizeString a = normalizeString b := by
  rw [entityEqv]
  exact beq_iff_eq

/-- C6: `calculateExactMatches` processes gold items in original order and
pairs each one with the first still-unmatched predicted item (in original
order) whose lowercased, trimmed form equals the gold item's; empty pools
yield zero exact matches with every item unmatched; and `goldIndices` /
`predIndices` are exactly the original positions of the unmatched items,
in ascending order. -/
theorem claim_C6 (preds golds : List String) :
    (∀ m ∈ (calculateExactMatches preds golds).exactMatches,
      m.goldIndex < golds.length ∧ m.predIndex < preds.length ∧
      normalizeString (golds.getD m.goldIndex default) =
        normalizeString (preds.getD m.predIndex default) ∧
      m.weight = 1 ∧ m.type = "exact" ∧
      m.goldItem = golds.getD m.goldIndex default ∧
      m.predItem = preds.getD m.predIndex default) ∧
    ((calculateExactMatches preds golds).exactMatches.map
      (fun m => m.goldIndex)).Pairwise (· < ·) ∧
    (∀ m ∈ (calculateExactMatches preds golds).exactMatches,
      ∀ q, q < m.predIndex →
        normalizeString (golds.getD m.goldIndex default) =
          normalizeString (preds.getD q default) →
        ∃ m2 ∈ (calculateExactMatches preds golds).exactMatches,
          m2.predIndex = q ∧ m2.goldIndex < m.goldIndex) ∧
    (∀ g, g < golds.length →
      (∀ m ∈ (calculateExactMatches preds golds).exactMatches,
        m.goldIndex ≠ g) →
      ∀ q, q < preds.length →
        normalizeString (golds.getD g default) =
          normalizeString (preds.getD q default) →
        ∃ m2 ∈ (calculateExactMatches preds golds).exactMatches,
          m2.predIndex = q ∧ m2.goldIndex < g) ∧
    ((preds = [] ∨ golds = []) →
      (calculateExactMatches preds golds).exactMatches = [] ∧
      (calculateExactMatches preds golds).goldIndices =
        List.range golds.length ∧
      (calculateExactMatches preds golds).predIndices =
        List.range preds.length ∧
      (calculateExactMatches preds golds).unmatchedGold = golds ∧
      (calculateExactMatches preds golds).unmatchedPredicted = preds) ∧
    (calculateExactMatches preds golds).goldIndices.Pairwise (· < ·) ∧
    (∀ g, g ∈ (calculateExactMatches preds golds).goldIndices ↔
      g < golds.length ∧
        ∀ m ∈ (calculateExactMatches preds golds).exactMatches,
          m.goldIndex ≠ g) ∧
    (calculateExactMatches preds golds).predIndices.Pairwise (· < ·) ∧
    (∀ p, p ∈ (calculateExactMatches preds golds).predIndices ↔
      p < preds.length ∧
        ∀ m ∈ (calculateExactMatches preds golds).exactMatches,
          m.predIndex ≠ p) ∧
    (calculateExactMatches preds golds).unmatchedGold =
      (calculateExactMatches preds golds).goldIndices.map
        (fun g => golds.getD g default) ∧
    (calculateExactMatches preds golds).unmatchedPredicted =
      (calculateExactMatches preds golds).predIndices.map
        (fun p => preds.getD p default) := by
  obtain ⟨h1, h2, h3, h4, h5, h6, h7⟩ := emFinal_inv entityEqv preds golds
  refine ⟨?_, ?_, ?_, ?_, ?_, ?_, ?_, ?_, ?_, rfl, rfl⟩
  · intro m hm
    obtain ⟨a, b, c, d, e, f, g2⟩ := h1 m hm
    exact ⟨a, b, entityEqv_eq.mp c, d, e, f, g2⟩
  · exact h2
  · intro m hm q hq he
    exact h6 m hm q hq (entityEqv_eq.mpr he)
  · intro g hg hgun q hq he
    exact h7 g hg hgun q hq (entityEqv_eq.mpr he)
  · intro hemp
    have hnil : (emFinal entityEqv preds golds).pairs = [] := by
      rw [List.eq_nil_iff_forall_not_mem]
      intro m hm
      obtain ⟨ha, hb, -⟩ := h1 m hm
      rcases hemp with rfl | rfl
      · exact absurd hb (Nat.not_lt_zero _)
      · exact absurd ha (Nat.not_lt_zero _)
    have hnog : ∀ i, (emFinal entityEqv preds golds).matchedGold.contains i
        = false := by
      intro i
      rw [Bool.eq_false_iff]
      intro hc
      obtain ⟨m, hm, -⟩ := (h3 i).mp (by simpa using hc)
      rw [hnil] at hm
      exact List.not_mem_nil m hm
    have hnop : ∀ i, (emFinal entityEqv preds golds).matchedPred.contains i
        = false := by
      intro i
      rw [Bool.eq_false_iff]
      intro hc
      obtain ⟨m, hm, -⟩ := (h4 i).mp (by simpa using hc)
      rw [hnil] at hm
      exact List.not_mem_nil m hm
    have hgi : (calculateExactMatches preds golds).goldIndices =
        List.range golds.length := by
      show (List.range golds.length).filter
        (fun g => !(emFinal entityEqv preds golds).matchedGold.contains g) =
          List.range golds.length
      apply List.filter_eq_self.mpr
      intro a ha
      rw [hnog a]
      rfl
    have hpi : (calculateExactMatches preds golds).predIndices =
        List.range preds.length := by
      show (List.range preds.length).filter
        (fun p => !(emFinal entityEqv preds golds).matchedPred.contains p) =
          List.range preds.length
      apply List.filter_eq_self.mpr
      intro a ha
      rw [hnop a]
      rfl
    refine ⟨hnil, hgi, hpi, ?_, ?_⟩
    · calc (calculateExactMatches preds golds).unmatchedGold
          = (calculateExactMatches preds golds).goldIndices.map
            (fun g => golds.getD g default) := rfl
        _ = (List.range golds.length).map (fun g => golds.getD g default) := by
            rw [hgi]
        _ = golds := map_getD_range golds
    · calc (calculateExactMatches preds golds).unmatchedPredicted
          = (calculateExactMatches preds golds).predIndices.map
            (fun p => preds.getD p default) := rfl
        _ = (List.range preds.length).map (fun p => preds.getD p default) := by
            rw [hpi]
        _ = preds := map_getD_range preds
  · exact List.Pairwise.filter _ (List.pairwise_lt_range golds.length)
  · exact calcEM_mem_goldIndices entityEqv preds golds
  · exact List.Pairwise.filter _ (List.pairwise_lt_range preds.length)
  · exact calcEM_mem_predIndices entityEqv preds golds

theorem buildGen_def {α : Type} [Inhabited α] (eqv : α → α → Bool)
    (preds golds : List α) (em : List (MatchPairG α))
    (sp pp : List (α × α)) (ugi upi : List Nat) :
    buildWeightMatrixGen eqv preds golds em sp pp ugi upi =
      pp.foldl
        (fun w pr =>
          match resolveIdx eqv golds ugi pr.1,
            resolveIdx eqv preds upi pr.2 with
          | some g, some p => if w g p < 3/4 then setCell w g p (1/2) else w
          | _, _ => w)
        (sp.foldl
          (fun w pr =>
            match resolveIdx eqv golds ugi pr.1,
              resolveIdx eqv preds upi pr.2 with
            | some g, some p => setCell w g p (3/4)
            | _, _ => w)
          (em.foldl (fun w m => setCell w m.goldIndex m.predIndex 1)
            (fun _ _ => 0))) := rfl

/-- A prefiltered exact cell keeps weight 1 when its row is not among the
unmatched gold indices. -/
theorem buildGen_exact_cell {α : Type} [Inhabited α] (eqv : α → α → Bool)
    (preds golds : List α) (em : List (MatchPairG α))
    (sp pp : List (α × α)) (ugi upi : List Nat)
    (hex : ∀ m ∈ em, m.goldIndex ∉ ugi) :
    ∀ m ∈ em,
      buildWeightMatrixGen eqv preds golds em sp pp ugi upi
        m.goldIndex m.predIndex = 1 := by
  intro m hm
  rw [buildGen_def]
  rw [foldl_par_skip eqv preds golds pp ugi upi _ m.goldIndex m.predIndex
    (hex m hm)]
  rw [foldl_sem_skip eqv preds golds sp ugi upi _ m.goldIndex m.predIndex
    (hex m hm)]
  exact foldl_exact_hit em _ ⟨m, hm, rfl, rfl⟩

/-- A cell targeted by a semantic pair ends at 3/4, no matter which
partial pairs also target it. -/
theorem buildGen_sem_cell {α : Type} [Inhabited α] (eqv : α → α → Bool)
    (preds golds : List α) (em : List (MatchPairG α))
    (sp pp : List (α × α)) (ugi upi : List Nat) {a b : α} {g p : Nat}
    (hmem : (a, b) ∈ sp)
    (h1 : resolveIdx eqv golds ugi a = some g)
    (h2 : resolveIdx eqv preds upi b = some p) :
    buildWeightMatrixGen eqv preds golds em sp pp ugi upi g p = 3/4 := by
  rw [buildGen_def]
  apply foldl_par_pres34
  exact foldl_sem_hit eqv preds golds sp ugi upi _ hmem h1 h2

/-- C5: every cell of the built weight matrix lies in
{0, 0.5, 0.75, 1}; a prefiltered exact cell is never overwritten by a
classifier pair (given the pipeline's disjointness of exact and unmatched
gold indices, which `calculateExactMatches` guarantees); and when a
semantic and a partial pair resolve to the same cell the final weight is
0.75, never 0.5.  Stated for `buildOptimizedWeightMatrix` and
`buildRelationshipWeightMatrix`. -/
theorem claim_C5 :
    (∀ (preds golds : List String) (em : List (MatchPairG String))
        (sp pp : List (String × String)) (ugi upi : List Nat),
      (∀ g p, cellOK
        (buildOptimizedWeightMatrix preds golds em sp pp ugi upi g p)) ∧
      ((∀ m ∈ em, m.goldIndex ∉ ugi) →
        ∀ m ∈ em, buildOptimizedWeightMatrix preds golds em sp pp ugi upi
          m.goldIndex m.predIndex = 1) ∧
      (∀ (a b x y : String) (g p : Nat),
        (a, b) ∈ sp → (x, y) ∈ pp →
        resolveIdx entityEqv golds ugi a = some g →
        resolveIdx entityEqv preds upi b = some p →
        resolveIdx entityEqv golds ugi x = some g →
        resolveIdx entityEqv preds upi y = some p →
        buildOptimizedWeightMatrix preds golds em sp pp ugi upi g p = 3/4)) ∧
    (∀ (preds golds : List CausalRelationship)
        (em : List (MatchPairG CausalRelationship))
        (sp pp : List (CausalRelationship × CausalRelationship))
        (ugi upi : List Nat),
      (∀ g p, cellOK
        (buildRelationshipWeightMatrix preds golds em sp pp ugi upi g p)) ∧
      ((∀ m ∈ em, m.goldIndex ∉ ugi) →
        ∀ m ∈ em, buildRelationshipWeightMatrix preds golds em sp pp ugi upi
          m.goldIndex m.predIndex = 1) ∧
      (∀ (a b x y : CausalRelationship) (g p : Nat),
        (a, b) ∈ sp → (x, y) ∈ pp →
        resolveIdx areRelationshipsEqual golds ugi a = some g →
        resolveIdx areRelationshipsEqual preds upi b = some p →
        resolveIdx areRelationshipsEqual golds ugi x = some g →
        resolveIdx areRelationshipsEqual preds upi y = some p →
        buildRelationshipWeightMatrix preds golds em sp pp ugi upi g p
          = 3/4)) ∧
    (∀ (preds golds : List String),
      ∀ m ∈ (calculateExactMatches preds golds).exactMatches,
        m.goldIndex ∉ (calculateExactMatches preds golds).goldIndices) ∧
    (∀ (preds golds : List CausalRelationship),
      ∀ m ∈ (calculateExactRelationshipMatches preds golds).exactMatches,
        m.goldIndex ∉
          (calculateExactRelationshipMatches preds golds).goldIndices) := by
  refine ⟨?_, ?_, ?_, ?_⟩
  · intro preds golds em sp pp ugi upi
    refine ⟨buildWeightMatrixGen_cells entityEqv preds golds em sp pp ugi upi,
      buildGen_exact_cell entityEqv preds golds em sp pp ugi upi, ?_⟩
    intro a b x y g p hab hxy h1 h2 h3 h4
    exact buildGen_sem_cell entityEqv preds golds em sp pp ugi upi hab h1 h2
  · intro preds golds em sp pp ugi upi
    refine ⟨buildWeightMatrixGen_cells areRelationshipsEqual preds golds
        em sp pp ugi upi,
      buildGen_exact_cell areRelationshipsEqual preds golds em sp pp ugi upi,
      ?_⟩
    intro a b x y g p hab hxy h1 h2 h3 h4
    exact buildGen_sem_cell areRelationshipsEqual preds golds em sp pp ugi upi
      hab h1 h2
  · intro preds golds
    exact calcEM_gold_disjoint entityEqv preds golds
  · intro preds golds
    exact calcEM_gold_disjoint areRelationshipsEqual preds golds

/-! ## Lemmas about the heuristic relationship classifier -/

theorem bestGold_eq_fold (preds golds : List CausalRelationship) (p : Nat)
    (usedGold : List Nat) :
    bestGold preds golds p usedGold =
      (List.range golds.length).foldl (bgStep preds golds p usedGold) none :=
  rfl

theorem bgFold_spec (preds golds : List CausalRelationship) (p : Nat)
    (usedGold : List Nat) (n : Nat) :
    (((List.range n).foldl (bgStep preds golds p usedGold) none) = none →
      ∀ g, g < n → g ∈ usedGold) ∧
    (∀ g s,
      ((List.range n).foldl (bgStep preds golds p usedGold) none) = some (g, s) →
      g < n ∧ g ∉ usedGold ∧ s = relSim preds golds p g ∧
        ∀ g2, g2 < n → g2 ∉ usedGold → relSim preds golds p g2 ≤ s) := by
  induction n with
  | zero =>
      constructor
      · intro _ g hg
        exact absurd hg (Nat.not_lt_zero g)
      · intro g s h
        exact absurd h (by simp)
  | succ n ih =>
      obtain ⟨ihn, ihs⟩ := ih
      rw [List.range_succ, List.foldl_append, List.foldl_cons, List.foldl_nil]
      constructor
      · intro hnone g hg
        rw [bgStep.eq_def] at hnone
        split at hnone
        case isTrue hc =>
          rcases Nat.lt_succ_iff_lt_or_eq.mp hg with h | rfl
          · exact ihn hnone g h
          · simpa using hc
        case isFalse hc =>
          rcases hpv : (List.range n).foldl (bgStep preds golds p usedGold) none
              with - | b
          · rw [hpv] at hnone
            have hnone2 : some (n, relSim preds golds p n) = none := hnone
            exact absurd hnone2 (Option.some_ne_none _)
          · rw [hpv] at hnone
            have hnone2 : (if b.2 < relSim preds golds p n
                then some (n, relSim preds golds p n) else some b) = none :=
              hnone
            split at hnone2 <;> exact absurd hnone2 (Option.some_ne_none _)
      · intro g s hsome
        rw [bgStep.eq_def] at hsome
        split at hsome
        case isTrue hc =>
          have hcm : (n : Nat) ∈ usedGold := by simpa using hc
          obtain ⟨hg, hgu, hsim, hmax⟩ := ihs g s hsome
          refine ⟨Nat.lt_succ_of_lt hg, hgu, hsim, ?_⟩
          intro g2 hg2 hg2u
          rcases Nat.lt_succ_iff_lt_or_eq.mp hg2 with h | rfl
          · exact hmax g2 h hg2u
          · exact absurd hcm hg2u
        case isFalse hc =>
          have hnu : (n : Nat) ∉ usedGold := by simpa using hc
          rcases hpv : (List.range n).foldl (bgStep preds golds p usedGold) none
              with - | b
          · rw [hpv] at hsome
            have hsome2 : some (n, relSim preds golds p n) = some (g, s) := hsome
            injection hsome2 with h
            rw [Prod.mk.injEq] at h
            obtain ⟨rfl, rfl⟩ := h
            refine ⟨Nat.lt_succ_self n, hnu, rfl, ?_⟩
            intro g2 hg2 hg2u
            rcases Nat.lt_succ_iff_lt_or_eq.mp hg2 with h2 | rfl
            · exact absurd (ihn hpv g2 h2) hg2u
            · exact le_refl _
          · obtain ⟨bg, bs⟩ := b
            rw [hpv] at hsome
            obtain ⟨hbg, hbu, hbsim, hbmax⟩ := ihs bg bs hpv
            have hsome2 : (if bs < relSim preds golds p n
                then some (n, relSim preds golds p n)
                else some (bg, bs)) = some (g, s) := hsome
            split at hsome2
            case isTrue hlt =>
              injection hsome2 with h
              rw [Prod.mk.injEq] at h
              obtain ⟨rfl, rfl⟩ := h
              refine ⟨Nat.lt_succ_self n, hnu, rfl, ?_⟩
              intro g2 hg2 hg2u
              rcases Nat.lt_succ_iff_lt_or_eq.mp hg2 with h2 | rfl
              · exact le_of_lt (lt_of_le_of_lt (hbmax g2 h2 hg2u) hlt)
              · exact le_refl _
            case isFalse hnlt =>
              injection hsome2 with h
              rw [Prod.mk.injEq] at h
              obtain ⟨rfl, rfl⟩ := h
              refine ⟨Nat.lt_succ_of_lt hbg, hbu, hbsim, ?_⟩
              intro g2 hg2 hg2u
              rcases Nat.lt_succ_iff_lt_or_eq.mp hg2 with h2 | rfl
              · exact hbmax g2 h2 hg2u
              · rw [hbsim] at hnlt ⊢
                exact not_lt.mp hnlt

theorem bestGold_spec (preds golds : List CausalRelationship) (p : Nat)
    (usedGold : List Nat) :
    (bestGold preds golds p usedGold = none →
      ∀ g, g < golds.length → g ∈ usedGold) ∧
    (∀ g s, bestGold preds golds p usedGold = some (g, s) →
      g < golds.length ∧ g ∉ usedGold ∧ s = relSim preds golds p g ∧
        ∀ g2, g2 < golds.length → g2 ∉ usedGold →
          relSim preds golds p g2 ≤ s) := by
  rw [bestGold_eq_fold]
  exact bgFold_spec preds golds p usedGold golds.length

theorem rsInv_init (preds golds : List CausalRelationship) :
    RSInv preds golds 0 ⟨[], [], [], []⟩ := by
  refine ⟨?_, ?_, ?_, ?_, ?_, ?_, ?_, ?_, ?_⟩ <;> simp

/-- Adding the pair `(bg, k)` (as semantic or as partial) preserves the
invariant. -/
theorem rsInv_add (preds golds : List CausalRelationship) (k : Nat)
    (st : RelSemState) (bg : Nat) (bs : ℚ)
    (hinv : RSInv preds golds k st)
    (hbg : bg < golds.length) (hbu : bg ∉ st.usedGold)
    (hbsim : bs = relSim preds golds k bg)
    (hbmax : ∀ g2, g2 < golds.length → g2 ∉ st.usedGold →
      relSim preds golds k g2 ≤ bs)
    (semIdx2 parIdx2 : List (Nat × Nat))
    (hcase :
      (semIdx2 = st.semIdx ++ [(bg, k)] ∧ parIdx2 = st.parIdx ∧ 7/10 < bs) ∨
      (semIdx2 = st.semIdx ∧ parIdx2 = st.parIdx ++ [(bg, k)] ∧
        2/5 < bs ∧ bs ≤ 7/10)) :
    RSInv preds golds (k + 1)
      ⟨k :: st.usedPred, bg :: st.usedGold, semIdx2, parIdx2⟩ := by
  obtain ⟨h1, h2, h3, h4, h5, h6, h7, h8, h9⟩ := hinv
  have hperm : List.Perm (semIdx2 ++ parIdx2)
      ((st.semIdx ++ st.parIdx) ++ [(bg, k)]) := by
    rcases hcase with ⟨ha, hb, -⟩ | ⟨ha, hb, -⟩
    · subst ha; subst hb
      have e1 : (st.semIdx ++ [(bg, k)]) ++ st.parIdx =
          st.semIdx ++ (bg, k) :: st.parIdx := by simp
      rw [e1]
      exact List.perm_middle.trans (List.perm_append_singleton _ _).symm
    · subst ha; subst hb
      rw [← List.append_assoc]
  have hmem : ∀ x, x ∈ semIdx2 ++ parIdx2 ↔
      x ∈ st.semIdx ++ st.parIdx ∨ x = (bg, k) := by
    intro x
    rw [hperm.mem_iff, List.mem_append, List.mem_singleton]
  refine ⟨?_, ?_, ?_, ?_, ?_, ?_, ?_, ?_, ?_⟩
  · intro gp hgp
    rcases (hmem gp).mp hgp with h | rfl
    · obtain ⟨a, b⟩ := h1 gp h
      exact ⟨a, Nat.lt_succ_of_lt b⟩
    · exact ⟨hbg, Nat.lt_succ_self k⟩
  · rw [(hperm.map (fun gp => gp.1)).nodup_iff, List.map_append,
      List.nodup_append]
    refine ⟨h2, by simp, ?_⟩
    intro x hx hx2
    simp only [List.map_cons, List.map_nil, List.mem_singleton] at hx2
    obtain ⟨gp, hgp, hgpi⟩ := List.mem_map.mp hx
    have hb2 : gp.1 = bg := by rw [hgpi, hx2]
    exact hbu ((h4 bg).mpr ⟨gp, hgp, hb2⟩)
  · rw [(hperm.map (fun gp => gp.2)).nodup_iff, List.map_append,
      List.nodup_append]
    refine ⟨h3, by simp, ?_⟩
    intro x hx hx2
    simp only [List.map_cons, List.map_nil, List.mem_singleton] at hx2
    obtain ⟨gp, hgp, hgpi⟩ := List.mem_map.mp hx
    have hk2 : gp.2 = k := by rw [hgpi, hx2]
    exact absurd (hk2 ▸ (h1 gp hgp).2) (lt_irrefl k)
  · intro i
    constructor
    · intro hi
      rcases List.mem_cons.mp hi with hi1 | hi2
      · exact ⟨(bg, k), (hmem _).mpr (Or.inr rfl), hi1.symm⟩
      · obtain ⟨gp, hgp, hgpi⟩ := (h4 i).mp hi2
        exact ⟨gp, (hmem _).mpr (Or.inl hgp), hgpi⟩
    · rintro ⟨gp, hgp, rfl⟩
      rcases (hmem gp).mp hgp with h | h
      · exact List.mem_cons_of_mem _ ((h4 _).mpr ⟨gp, h, rfl⟩)
      · rw [h]
        exact List.mem_cons_self _ _
  · intro i
    constructor
    · intro hi
      rcases List.mem_cons.mp hi with hi1 | hi2
      · exact ⟨(bg, k), (hmem _).mpr (Or.inr rfl), hi1.symm⟩
      · obtain ⟨gp, hgp, hgpi⟩ := (h5 i).mp hi2
        exact ⟨gp, (hmem _).mpr (Or.inl hgp), hgpi⟩
    · rintro ⟨gp, hgp, rfl⟩
      rcases (hmem gp).mp hgp with h | h
      · exact List.mem_cons_of_mem _ ((h5 _).mpr ⟨gp, h, rfl⟩)
      · rw [h]
        exact List.mem_cons_self _ _
  · intro gp hgp
    rcases hcase with ⟨ha, hb, hthr⟩ | ⟨ha, hb, hthr⟩
    · rw [ha] at hgp
      rcases List.mem_append.mp hgp with h | h
      · exact h6 gp h
      · rw [List.mem_singleton] at h
        subst h
        simpa using hbsim ▸ hthr
    · rw [ha] at hgp
      exact h6 gp hgp
  · intro gp hgp
    rcases hcase with ⟨ha, hb, hthr⟩ | ⟨ha, hb, hthr1, hthr2⟩
    · rw [hb] at hgp
      exact h7 gp hgp
    · rw [hb] at hgp
      rcases List.mem_append.mp hgp with h | h
      · exact h7 gp h
      · rw [List.mem_singleton] at h
        subst h
        constructor
        · simpa using hbsim ▸ hthr1
        · simpa using hbsim ▸ hthr2
  · intro gp hgp g2 hg2 hfree
    rcases (hmem gp).mp hgp with h | rfl
    · refine h8 gp h g2 hg2 ?_
      intro gp2 hgp2 hlt
      exact hfree gp2 ((hmem _).mpr (Or.inl hgp2)) hlt
    · have hg2u : g2 ∉ st.usedGold := by
        intro hg2m
        obtain ⟨gp2, hgp2, hgp2i⟩ := (h4 g2).mp hg2m
        exact hfree gp2 ((hmem _).mpr (Or.inl hgp2)) (h1 gp2 hgp2).2 hgp2i
      have := hbmax g2 hg2 hg2u
      rw [hbsim] at this
      exact this
  · intro p2 hp2 hnp g2 hg2 hfree
    rcases Nat.lt_succ_iff_lt_or_eq.mp hp2 with h | rfl
    · refine h9 p2 h ?_ g2 hg2 ?_
      · intro gp hgp
        exact hnp gp ((hmem _).mpr (Or.inl hgp))
      · intro gp hgp hlt
        exact hfree gp ((hmem _).mpr (Or.inl hgp)) hlt
    · exact absurd rfl (hnp (bg, p2) ((hmem _).mpr (Or.inr rfl)))

theorem rsInv_step (preds golds : List CausalRelationship) {k : Nat}
    {st : RelSemState} (h : RSInv preds golds k st) :
    RSInv preds golds (k + 1) (relSemStep preds golds st k) := by
  obtain ⟨h1, h2, h3, h4, h5, h6, h7, h8, h9⟩ := h
  have hinv : RSInv preds golds k st := ⟨h1, h2, h3, h4, h5, h6, h7, h8, h9⟩
  have hnv : ¬ st.usedPred.contains k = true := by
    intro hc
    obtain ⟨gp, hgp, hgpi⟩ := (h5 k).mp (by simpa using hc)
    exact absurd (hgpi ▸ (h1 gp hgp).2) (lt_irrefl k)
  rw [relSemStep, if_neg hnv]
  rcases hbest : bestGold preds golds k st.usedGold with - | b
  · show RSInv preds golds (k + 1) st
    have hall := (bestGold_spec preds golds k st.usedGold).1 hbest
    refine ⟨?_, h2, h3, h4, h5, h6, h7, h8, ?_⟩
    · intro gp hgp
      obtain ⟨a, b2⟩ := h1 gp hgp
      exact ⟨a, Nat.lt_succ_of_lt b2⟩
    · intro p2 hp2 hnp g2 hg2 hfree
      rcases Nat.lt_succ_iff_lt_or_eq.mp hp2 with hlt | rfl
      · exact h9 p2 hlt hnp g2 hg2 hfree
      · have hg2used := hall g2 hg2
        obtain ⟨gp, hgp, hgpi⟩ := (h4 g2).mp hg2used
        exact absurd hgpi (hfree gp hgp (h1 gp hgp).2)
  · obtain ⟨bg, bs⟩ := b
    obtain ⟨hbg, hbu, hbsim, hbmax⟩ :=
      (bestGold_spec preds golds k st.usedGold).2 bg bs hbest
    show RSInv preds golds (k + 1)
      (if 7/10 < bs then
        ⟨k :: st.usedPred, bg :: st.usedGold, st.semIdx ++ [(bg, k)],
          st.parIdx⟩
      else if 2/5 < bs then
        ⟨k :: st.usedPred, bg :: st.usedGold, st.semIdx,
          st.parIdx ++ [(bg, k)]⟩
      else st)
    split
    case isTrue hthr =>
      exact rsInv_add preds golds k st bg bs hinv hbg hbu hbsim hbmax _ _
        (Or.inl ⟨rfl, rfl, hthr⟩)
    case isFalse hthr =>
      split
      case isTrue hthr2 =>
        exact rsInv_add preds golds k st bg bs hinv hbg hbu hbsim hbmax _ _
          (Or.inr ⟨rfl, rfl, hthr2, not_lt.mp hthr⟩)
      case isFalse hthr2 =>
        refine ⟨?_, h2, h3, h4, h5, h6, h7, h8, ?_⟩
        · intro gp hgp
          obtain ⟨a, b2⟩ := h1 gp hgp
          exact ⟨a, Nat.lt_succ_of_lt b2⟩
        · intro p2 hp2 hnp g2 hg2 hfree
          rcases Nat.lt_succ_iff_lt_or_eq.mp hp2 with hlt | rfl
          · exact h9 p2 hlt hnp g2 hg2 hfree
          · have hg2u : g2 ∉ st.usedGold := by
              intro hg2m
              obtain ⟨gp, hgp, hgpi⟩ := (h4 g2).mp hg2m
              exact hfree gp hgp (h1 gp hgp).2 hgpi
            exact le_trans (hbmax g2 hg2 hg2u) (not_lt.mp hthr2)

theorem rsInv_foldl (preds golds : List CausalRelationship) (n : Nat) :
    RSInv preds golds n
      ((List.range n).foldl (relSemStep preds golds) ⟨[], [], [], []⟩) := by
  induction n with
  | zero => exact rsInv_init preds golds
  | succ n ih =>
      rw [List.range_succ, List.foldl_append, List.foldl_cons, List.foldl_nil]
      exact rsInv_step preds golds ih

theorem evalRelSemIdx_inv (preds golds : List CausalRelationship) :
    RSInv preds golds preds.length (evalRelSemIdx preds golds) := by
  rw [evalRelSemIdx]
  split
  case isTrue hemp =>
    refine ⟨by simp, by simp, by simp, by simp, by simp, by simp, by simp,
      by simp, ?_⟩
    intro p2 hp2 hnp g2 hg2 hfree
    rcases hemp with h | h
    · rw [h] at hp2
      exact absurd hp2 (Nat.not_lt_zero p2)
    · rw [h] at hg2
      exact absurd hg2 (Nat.not_lt_zero g2)
  case isFalse hne =>
    exact rsInv_foldl preds golds preds.length

/-- C7: for each unmatched predicted relationship in pool order the mockup
classifier scores every still-free gold relationship by the average of the
cause and effect word-set Jaccard similarities (case-normalised tokens of
length > 2), takes the best-scoring free gold relationship, and emits a
semantic pair iff the best similarity is > 0.7, a partial pair iff it is
> 0.4 and ≤ 0.7, and nothing otherwise; no gold or predicted index is used
twice.  The embedding is a pure function, so the classifier is
deterministic and performs no judge call. -/
theorem claim_C7 (preds golds : List CausalRelationship) :
    (evaluateRelationshipSemanticMatches preds golds).semanticPairs =
      (evalRelSemIdx preds golds).semIdx.map
        (fun gp => (golds.getD gp.1 default, preds.getD gp.2 default)) ∧
    (evaluateRelationshipSemanticMatches preds golds).partPairs =
      (evalRelSemIdx preds golds).parIdx.map
        (fun gp => (golds.getD gp.1 default, preds.getD gp.2 default)) ∧
    (∀ p g, relSim preds golds p g = calculateRelationshipSimilarity
      (preds.getD p default) (golds.getD g default)) ∧
    (∀ rel1 rel2 : CausalRelationship,
      calculateRelationshipSimilarity rel1 rel2 =
        (calculateWordOverlap (wordTokens rel1.cause) (wordTokens rel2.cause)
          + calculateWordOverlap (wordTokens rel1.effect)
            (wordTokens rel2.effect)) / 2) ∧
    (∀ ws1 ws2 : List String,
      calculateWordOverlap ws1 ws2 =
        if 0 < ((ws1.map String.toLower).toFinset ∪
            (ws2.map String.toLower).toFinset).card
        then (((ws1.map String.toLower).toFinset ∩
            (ws2.map String.toLower).toFinset).card : ℚ) /
          (((ws1.map String.toLower).toFinset ∪
            (ws2.map String.toLower).toFinset).card : ℚ)
        else 0) ∧
    (∀ s : String, wordTokens s =
      ((normalizeString s).split (fun c => c.isWhitespace)).filter
        (fun w => 2 < w.length)) ∧
    (∀ gp ∈ (evalRelSemIdx preds golds).semIdx ++
        (evalRelSemIdx preds golds).parIdx,
      gp.1 < golds.length ∧ gp.2 < preds.length) ∧
    (((evalRelSemIdx preds golds).semIdx ++
      (evalRelSemIdx preds golds).parIdx).map (fun gp => gp.1)).Nodup ∧
    (((evalRelSemIdx preds golds).semIdx ++
      (evalRelSemIdx preds golds).parIdx).map (fun gp => gp.2)).Nodup ∧
    (∀ gp ∈ (evalRelSemIdx preds golds).semIdx,
      7/10 < relSim preds golds gp.2 gp.1) ∧
    (∀ gp ∈ (evalRelSemIdx preds golds).parIdx,
      2/5 < relSim preds golds gp.2 gp.1 ∧
        relSim preds golds gp.2 gp.1 ≤ 7/10) ∧
    (∀ gp ∈ (evalRelSemIdx preds golds).semIdx ++
        (evalRelSemIdx preds golds).parIdx,
      ∀ g2, g2 < golds.length →
        (∀ gp2 ∈ (evalRelSemIdx preds golds).semIdx ++
            (evalRelSemIdx preds golds).parIdx,
          gp2.2 < gp.2 → gp2.1 ≠ g2) →
        relSim preds golds gp.2 g2 ≤ relSim preds golds gp.2 gp.1) ∧
    (∀ p2, p2 < preds.length →
      (∀ gp ∈ (evalRelSemIdx preds golds).semIdx ++
          (evalRelSemIdx preds golds).parIdx, gp.2 ≠ p2) →
      ∀ g2, g2 < golds.length →
        (∀ gp ∈ (evalRelSemIdx preds golds).semIdx ++
            (evalRelSemIdx preds golds).parIdx, gp.2 < p2 → gp.1 ≠ g2) →
        relSim preds golds p2 g2 ≤ 2/5) ∧
    ((preds = [] ∨ golds = []) →
      evaluateRelationshipSemanticMatches preds golds = ⟨[], []⟩) := by
  obtain ⟨h1, h2, h3, h4, h5, h6, h7, h8, h9⟩ := evalRelSemIdx_inv preds golds
  refine ⟨rfl, rfl, fun p g => rfl, fun rel1 rel2 => rfl, ?_, fun s => rfl,
    h1, h2, h3, h6, h7, h8, h9, ?_⟩
  · intro ws1 ws2
    show (let s1 := (ws1.map String.toLower).toFinset
      let s2 := (ws2.map String.toLower).toFinset
      let inter := s1.filter (fun x => x ∈ s2)
      let uni := s1 ∪ s2
      if 0 < uni.card then (inter.card : ℚ) / (uni.card : ℚ) else 0) = _
    simp only
    rw [Finset.filter_mem_eq_inter]
  · intro hemp
    have : evalRelSemIdx preds golds = ⟨[], [], [], []⟩ := by
      rw [evalRelSemIdx, if_pos]
      rcases hemp with rfl | rfl
      · exact Or.inl rfl
      · exact Or.inr rfl
    rw [evaluateRelationshipSemanticMatches, this]
    rfl

/-! ## Lemmas about the full pipeline -/

theorem findMax_matches_bounds {α : Type} [Inhabited α] (w : Nat → Nat → ℚ)
    (golds preds : List α) :
    ∀ m ∈ (findMaxWeightMatchingGen w golds preds).matches',
      m.goldIndex < golds.length ∧ m.predIndex < preds.length ∧
      m.goldItem = golds.getD m.goldIndex default ∧
      m.predItem = preds.getD m.predIndex default ∧
      m.weight = w m.goldIndex m.predIndex ∧ 0 < m.weight := by
  intro m hm
  obtain ⟨c, hc, rfl⟩ := findMax_matches_source w golds preds m hm
  obtain ⟨h1, h2, h3, h4⟩ := mem_potentialMatches.mp hc
  refine ⟨h1, h2, rfl, rfl, h4, ?_⟩
  show 0 < c.weight
  rw [h4]
  exact h3

theorem potentialMatches_empty {w : Nat → Nat → ℚ} {G P : Nat}
    (h : G = 0 ∨ P = 0) : potentialMatches w G P = [] := by
  rw [List.eq_nil_iff_forall_not_mem]
  intro c hc
  obtain ⟨h1, h2, -, -⟩ := mem_potentialMatches.mp hc
  rcases h with rfl | rfl
  · exact absurd h1 (Nat.not_lt_zero _)
  · exact absurd h2 (Nat.not_lt_zero _)

theorem findMax_empty_total {α : Type} [Inhabited α] (w : Nat → Nat → ℚ)
    (golds preds : List α) (h : golds.length = 0 ∨ preds.length = 0) :
    (findMaxWeightMatchingGen w golds preds).totalWeight = 0 := by
  rw [findMax_totalWeight_def, finalState, potentialMatches_empty h]
  rfl

theorem three_filter_perm {β : Type} (l : List β) (p1 p2 p3 : β → Bool)
    (h : ∀ x ∈ l,
      (p1 x = true ∧ p2 x = false ∧ p3 x = false) ∨
      (p1 x = false ∧ p2 x = true ∧ p3 x = false) ∨
      (p1 x = false ∧ p2 x = false ∧ p3 x = true)) :
    List.Perm (l.filter p1 ++ l.filter p2 ++ l.filter p3) l := by
  induction l with
  | nil => simp
  | cons x xs ih =>
      have hx := h x (List.mem_cons_self x xs)
      have hr : ∀ y ∈ xs,
          (p1 y = true ∧ p2 y = false ∧ p3 y = false) ∨
          (p1 y = false ∧ p2 y = true ∧ p3 y = false) ∨
          (p1 y = false ∧ p2 y = false ∧ p3 y = true) :=
        fun y hy => h y (List.mem_cons_of_mem x hy)
      rcases hx with ⟨a, b, c⟩ | ⟨a, b, c⟩ | ⟨a, b, c⟩
      · rw [List.filter_cons_of_pos a, List.filter_cons_of_neg (by simp [b]),
          List.filter_cons_of_neg (by simp [c]), List.cons_append,
          List.cons_append]
        exact (ih hr).cons x
      · rw [List.filter_cons_of_neg (by simp [a]), List.filter_cons_of_pos b,
          List.filter_cons_of_neg (by simp [c])]
        have e1 : xs.filter p1 ++ (x :: xs.filter p2) ++ xs.filter p3 =
            xs.filter p1 ++ x :: (xs.filter p2 ++ xs.filter p3) := by
          simp [List.append_assoc]
        rw [e1]
        refine List.perm_middle.trans ?_
        have e2 : xs.filter p1 ++ (xs.filter p2 ++ xs.filter p3) =
            xs.filter p1 ++ xs.filter p2 ++ xs.filter p3 := by
          simp [List.append_assoc]
        rw [e2]
        exact (ih hr).cons x
      · rw [List.filter_cons_of_neg (by simp [a]), List.filter_cons_of_neg
          (by simp [b]), List.filter_cons_of_pos c]
        refine List.perm_middle.trans ?_
        exact (ih hr).cons x

theorem f1_bounds {p r : ℚ} (hp0 : 0 ≤ p) (hp1 : p ≤ 1) (hr0 : 0 ≤ r)
    (hr1 : r ≤ 1) :
    0 ≤ 2 * (p * r) / (p + r) ∧ 2 * (p * r) / (p + r) ≤ 1 := by
  by_cases h : p + r = 0
  · rw [h, div_zero]
    exact ⟨le_refl 0, zero_le_one⟩
  · have hpr : 0 < p + r :=
      lt_of_le_of_ne (add_nonneg hp0 hr0) (Ne.symm h)
    constructor
    · exact div_nonneg (by nlinarith) (le_of_lt hpr)
    · rw [div_le_one hpr]
      nlinarith

theorem cellOK_nonneg {q : ℚ} (h : cellOK q) : 0 ≤ q := by
  rcases h with rfl | rfl | rfl | rfl <;> norm_num

theorem cellOK_le_one {q : ℚ} (h : cellOK q) : q ≤ 1 := by
  rcases h with rfl | rfl | rfl | rfl <;> norm_num

theorem findMax_totalWeight_bounds {α : Type} [Inhabited α]
    (w : Nat → Nat → ℚ) (golds preds : List α)
    (hcells : ∀ g p, g < golds.length → p < preds.length → cellOK (w g p)) :
    0 ≤ (findMaxWeightMatchingGen w golds preds).totalWeight ∧
      (findMaxWeightMatchingGen w golds preds).totalWeight ≤
        (min golds.length preds.length : Nat) := by
  have hbounds := findMax_matches_bounds w golds preds
  have hW : ∀ m ∈ (findMaxWeightMatchingGen w golds preds).matches',
      0 ≤ m.weight ∧ m.weight ≤ 1 := by
    intro m hm
    obtain ⟨h1, h2, -, -, h5, -⟩ := hbounds m hm
    have := hcells m.goldIndex m.predIndex h1 h2
    rw [← h5] at this
    exact ⟨cellOK_nonneg this, cellOK_le_one this⟩
  have htot : (findMaxWeightMatchingGen w golds preds).totalWeight =
      ((findMaxWeightMatchingGen w golds preds).matches'.map
        (fun m => m.weight)).sum := rfl
  constructor
  · rw [htot]
    apply List.sum_nonneg
    intro q hq
    obtain ⟨m, hm, rfl⟩ := List.mem_map.mp hq
    exact (hW m hm).1
  · rw [htot]
    have hlen : (findMaxWeightMatchingGen w golds preds).matches'.length ≤
        min golds.length preds.length := by
      rw [le_min_iff]
      obtain ⟨ng, np, -, -⟩ := findMax_one_one w golds preds
      constructor
      · have hsub : ((findMaxWeightMatchingGen w golds preds).matches'.map
            (fun m => m.goldIndex)) ⊆ List.range golds.length := by
          intro i hi
          obtain ⟨m, hm, rfl⟩ := List.mem_map.mp hi
          exact List.mem_range.mpr (hbounds m hm).1
        have := (List.subperm_of_subset ng hsub).length_le
        simpa using this
      · have hsub : ((findMaxWeightMatchingGen w golds preds).matches'.map
            (fun m => m.predIndex)) ⊆ List.range preds.length := by
          intro i hi
          obtain ⟨m, hm, rfl⟩ := List.mem_map.mp hi
          exact List.mem_range.mpr (hbounds m hm).2.1
        have := (List.subperm_of_subset np hsub).length_le
        simpa using this
    calc ((findMaxWeightMatchingGen w golds preds).matches'.map
        (fun m => m.weight)).sum
        ≤ ((findMaxWeightMatchingGen w golds preds).matches'.map
          (fun m => m.weight)).length • (1 : ℚ) := by
          apply List.sum_le_card_nsmul
          intro q hq
          obtain ⟨m, hm, rfl⟩ := List.mem_map.mp hq
          exact (hW m hm).2
      _ = ((findMaxWeightMatchingGen w golds preds).matches'.length : ℚ) := by
          rw [List.length_map]
          simp
      _ ≤ ((min golds.length preds.length : Nat) : ℚ) := by
          exact_mod_cast hlen

theorem calcCore_zero {α : Type} [Inhabited α] (eqv : α → α → Bool)
    (judge : List α → List α → SemanticPairsG α) (allPreds allGolds : List α)
    (h : allPreds.length = 0 ∨ allGolds.length = 0) :
    calcMetricsCore eqv judge allPreds allGolds =
      ⟨0, 0, 0, 0, (allPreds.length : ℚ), (allGolds.length : ℚ),
        [], [], [], allPreds⟩ := by
  rw [calcMetricsCore.eq_def]
  dsimp only
  rw [if_pos h]

theorem calcCore_pos {α : Type} [Inhabited α] (eqv : α → α → Bool)
    (judge : List α → List α → SemanticPairsG α) (allPreds allGolds : List α)
    (h : ¬(allPreds.length = 0 ∨ allGolds.length = 0)) :
    calcMetricsCore eqv judge allPreds allGolds =
      ⟨(findMaxWeightMatchingGen (metricsMatrix eqv judge allPreds allGolds)
          allGolds allPreds).totalWeight / (allPreds.length : ℚ),
        (findMaxWeightMatchingGen (metricsMatrix eqv judge allPreds allGolds)
          allGolds allPreds).totalWeight / (allGolds.length : ℚ),
        2 * ((findMaxWeightMatchingGen (metricsMatrix eqv judge allPreds allGolds)
            allGolds allPreds).totalWeight / (allPreds.length : ℚ) *
          ((findMaxWeightMatchingGen (metricsMatrix eqv judge allPreds allGolds)
            allGolds allPreds).totalWeight / (allGolds.length : ℚ))) /
          ((findMaxWeightMatchingGen (metricsMatrix eqv judge allPreds allGolds)
            allGolds allPreds).totalWeight / (allPreds.length : ℚ) +
          (findMaxWeightMatchingGen (metricsMatrix eqv judge allPreds allGolds)
            allGolds allPreds).totalWeight / (allGolds.length : ℚ)),
        (findMaxWeightMatchingGen (metricsMatrix eqv judge allPreds allGolds)
          allGolds allPreds).totalWeight,
        (allPreds.length : ℚ) -
          (findMaxWeightMatchingGen (metricsMatrix eqv judge allPreds allGolds)
            allGolds allPreds).totalWeight,
        (allGolds.length : ℚ) -
          (findMaxWeightMatchingGen (metricsMatrix eqv judge allPreds allGolds)
            allGolds allPreds).totalWeight,
        ((findMaxWeightMatchingGen (metricsMatrix eqv judge allPreds allGolds)
          allGolds allPreds).matches'.filter
            (fun m => m.type == "exact")).map (fun m => m.predItem),
        ((findMaxWeightMatchingGen (metricsMatrix eqv judge allPreds allGolds)
          allGolds allPreds).matches'.filter
            (fun m => m.type == "semantic")).map (fun m => m.predItem),
        ((findMaxWeightMatchingGen (metricsMatrix eqv judge allPreds allGolds)
          allGolds allPreds).matches'.filter
            (fun m => m.type == "partial")).map (fun m => m.predItem),
        (findMaxWeightMatchingGen (metricsMatrix eqv judge allPreds allGolds)
          allGolds allPreds).unmatchedPredIndices.map
            (fun i => allPreds.getD i default)⟩ := by
  rw [calcMetricsCore.eq_def]
  dsimp only
  rw [if_neg h]

theorem calcCore_arith {α : Type} [Inhabited α] (eqv : α → α → Bool)
    (judge : List α → List α → SemanticPairsG α) (allPreds allGolds : List α) :
    (calcMetricsCore eqv judge allPreds allGolds).TPw =
      (findMaxWeightMatchingGen (metricsMatrix eqv judge allPreds allGolds)
        allGolds allPreds).totalWeight ∧
    (calcMetricsCore eqv judge allPreds allGolds).FNw =
      (allGolds.length : ℚ) -
        (calcMetricsCore eqv judge allPreds allGolds).TPw ∧
    (calcMetricsCore eqv judge allPreds allGolds).FPw =
      (allPreds.length : ℚ) -
        (calcMetricsCore eqv judge allPreds allGolds).TPw ∧
    (calcMetricsCore eqv judge allPreds allGolds).TPw +
        (calcMetricsCore eqv judge allPreds allGolds).FNw =
      (allGolds.length : ℚ) ∧
    (calcMetricsCore eqv judge allPreds allGolds).TPw +
        (calcMetricsCore eqv judge allPreds allGolds).FPw =
      (allPreds.length : ℚ) ∧
    (calcMetricsCore eqv judge allPreds allGolds).precision =
      (calcMetricsCore eqv judge allPreds allGolds).TPw /
        (allPreds.length : ℚ) ∧
    (allPreds.length = 0 →
      (calcMetricsCore eqv judge allPreds allGolds).precision = 0) ∧
    (calcMetricsCore eqv judge allPreds allGolds).recall' =
      (calcMetricsCore eqv judge allPreds allGolds).TPw /
        (allGolds.length : ℚ) ∧
    (allGolds.length = 0 →
      (calcMetricsCore eqv judge allPreds allGolds).recall' = 0) ∧
    (calcMetricsCore eqv judge allPreds allGolds).f1 =
      (if (calcMetricsCore eqv judge allPreds allGolds).precision +
          (calcMetricsCore eqv judge allPreds allGolds).recall' = 0 then 0
        else 2 * ((calcMetricsCore eqv judge allPreds allGolds).precision *
            (calcMetricsCore eqv judge allPreds allGolds).recall') /
          ((calcMetricsCore eqv judge allPreds allGolds).precision +
            (calcMetricsCore eqv judge allPreds allGolds).recall')) := by
  by_cases h : allPreds.length = 0 ∨ allGolds.length = 0
  · rw [calcCore_zero eqv judge allPreds allGolds h]
    refine ⟨(findMax_empty_total _ _ _ h.symm).symm, (sub_zero _).symm,
      (sub_zero _).symm, zero_add _, zero_add _, (zero_div _).symm,
      fun _ => rfl, (zero_div _).symm, fun _ => rfl, ?_⟩
    show (0 : ℚ) = if (0 : ℚ) + 0 = 0 then 0 else 2 * (0 * 0) / (0 + 0)
    rw [if_pos (by norm_num)]
  · rw [calcCore_pos eqv judge allPreds allGolds h]
    push_neg at h
    obtain ⟨hp, hg⟩ := h
    refine ⟨rfl, rfl, rfl, by ring, by ring, rfl, fun h0 => absurd h0 hp, rfl,
      fun h0 => absurd h0 hg, ?_⟩
    dsimp only
    by_cases hz :
        (findMaxWeightMatchingGen (metricsMatrix eqv judge allPreds allGolds)
          allGolds allPreds).totalWeight / (allPreds.length : ℚ) +
        (findMaxWeightMatchingGen (metricsMatrix eqv judge allPreds allGolds)
          allGolds allPreds).totalWeight / (allGolds.length : ℚ) = 0
    · rw [if_pos hz, hz, div_zero]
    · rw [if_neg hz]

theorem metricsMatrix_cells {α : Type} [Inhabited α] (eqv : α → α → Bool)
    (judge : List α → List α → SemanticPairsG α) (allPreds allGolds : List α) :
    ∀ g p, cellOK (metricsMatrix eqv judge allPreds allGolds g p) := by
  intro g p
  exact buildWeightMatrixGen_cells eqv allPreds allGolds _ _ _ _ _ g p

theorem calcCore_bounds {α : Type} [Inhabited α] (eqv : α → α → Bool)
    (judge : List α → List α → SemanticPairsG α) (allPreds allGolds : List α) :
    0 ≤ (calcMetricsCore eqv judge allPreds allGolds).FNw ∧
    0 ≤ (calcMetricsCore eqv judge allPreds allGolds).FPw ∧
    0 ≤ (calcMetricsCore eqv judge allPreds allGolds).precision ∧
    (calcMetricsCore eqv judge allPreds allGolds).precision ≤ 1 ∧
    0 ≤ (calcMetricsCore eqv judge allPreds allGolds).recall' ∧
    (calcMetricsCore eqv judge allPreds allGolds).recall' ≤ 1 ∧
    0 ≤ (calcMetricsCore eqv judge allPreds allGolds).f1 ∧
    (calcMetricsCore eqv judge allPreds allGolds).f1 ≤ 1 := by
  by_cases h : allPreds.length = 0 ∨ allGolds.length = 0
  · rw [calcCore_zero eqv judge allPreds allGolds h]
    refine ⟨?_, ?_, le_refl 0, zero_le_one, le_refl 0, zero_le_one,
      le_refl 0, zero_le_one⟩
    · exact Nat.cast_nonneg _
    · exact Nat.cast_nonneg _
  · have hbounds := findMax_totalWeight_bounds
      (metricsMatrix eqv judge allPreds allGolds) allGolds allPreds
      (fun g p _ _ => metricsMatrix_cells eqv judge allPreds allGolds g p)
    obtain ⟨hT0, hTm⟩ := hbounds
    push_neg at h
    obtain ⟨hp, hg⟩ := h
    have hPpos : (0 : ℚ) < (allPreds.length : ℚ) := by
      exact_mod_cast Nat.pos_of_ne_zero hp
    have hGpos : (0 : ℚ) < (allGolds.length : ℚ) := by
      exact_mod_cast Nat.pos_of_ne_zero hg
    have hTG : (findMaxWeightMatchingGen
        (metricsMatrix eqv judge allPreds allGolds) allGolds
        allPreds).totalWeight ≤ (allGolds.length : ℚ) := by
      refine le_trans hTm ?_
      exact_mod_cast Nat.min_le_left allGolds.length allPreds.length
    have hTP : (findMaxWeightMatchingGen
        (metricsMatrix eqv judge allPreds allGolds) allGolds
        allPreds).totalWeight ≤ (allPreds.length : ℚ) := by
      refine le_trans hTm ?_
      exact_mod_cast Nat.min_le_right allGolds.length allPreds.length
    rw [calcCore_pos eqv judge allPreds allGolds (by push_neg; exact ⟨hp, hg⟩)]
    have hprec0 : (0 : ℚ) ≤ (findMaxWeightMatchingGen
        (metricsMatrix eqv judge allPreds allGolds) allGolds
        allPreds).totalWeight / (allPreds.length : ℚ) :=
      div_nonneg hT0 (le_of_lt hPpos)
    have hprec1 : (findMaxWeightMatchingGen
        (metricsMatrix eqv judge allPreds allGolds) allGolds
        allPreds).totalWeight / (allPreds.length : ℚ) ≤ 1 :=
      (div_le_one hPpos).mpr hTP
    have hrec0 : (0 : ℚ) ≤ (findMaxWeightMatchingGen
        (metricsMatrix eqv judge allPreds allGolds) allGolds
        allPreds).totalWeight / (allGolds.length : ℚ) :=
      div_nonneg hT0 (le_of_lt hGpos)
    have hrec1 : (findMaxWeightMatchingGen
        (metricsMatrix eqv judge allPreds allGolds) allGolds
        allPreds).totalWeight / (allGolds.length : ℚ) ≤ 1 :=
      (div_le_one hGpos).mpr hTG
    obtain ⟨hf0, hf1⟩ := f1_bounds hprec0 hprec1 hrec0 hrec1
    exact ⟨sub_nonneg.mpr hTG, sub_nonneg.mpr hTP, hprec0, hprec1,
      hrec0, hrec1, hf0, hf1⟩

theorem calcCore_partition {α : Type} [Inhabited α] (eqv : α → α → Bool)
    (judge : List α → List α → SemanticPairsG α) (allPreds allGolds : List α) :
    List.Perm
      ((calcMetricsCore eqv judge allPreds allGolds).exact ++
        (calcMetricsCore eqv judge allPreds allGolds).semantic ++
        (calcMetricsCore eqv judge allPreds allGolds).part ++
        (calcMetricsCore eqv judge allPreds allGolds).noMatch)
      allPreds := by
  by_cases h : allPreds.length = 0 ∨ allGolds.length = 0
  · rw [calcCore_zero eqv judge allPreds allGolds h]
    simp
  · rw [calcCore_pos eqv judge allPreds allGolds h]
    dsimp only
    have hone : ∀ m ∈ (findMaxWeightMatchingGen
        (metricsMatrix eqv judge allPreds allGolds) allGolds
        allPreds).matches',
        ((m.type == "exact") = true ∧ (m.type == "semantic") = false ∧
          (m.type == "partial") = false) ∨
        ((m.type == "exact") = false ∧ (m.type == "semantic") = true ∧
          (m.type == "partial") = false) ∨
        ((m.type == "exact") = false ∧ (m.type == "semantic") = false ∧
          (m.type == "partial") = true) := by
      intro m hm
      have ht := findMax_type_eq _ _ _ m hm
      rw [weightTypeStr] at ht
      split at ht
      · left
        rw [ht]
        exact ⟨by decide, by decide, by decide⟩
      · split at ht
        · right; left
          rw [ht]
          exact ⟨by decide, by decide, by decide⟩
        · right; right
          rw [ht]
          exact ⟨by decide, by decide, by decide⟩
    have hp1 := three_filter_perm
      (findMaxWeightMatchingGen (metricsMatrix eqv judge allPreds allGolds)
        allGolds allPreds).matches'
      (fun m => m.type == "exact") (fun m => m.type == "semantic")
      (fun m => m.type == "partial") hone
    have hitem : (findMaxWeightMatchingGen
        (metricsMatrix eqv judge allPreds allGolds) allGolds
        allPreds).matches'.map (fun m => m.predItem) =
        ((findMaxWeightMatchingGen
          (metricsMatrix eqv judge allPreds allGolds) allGolds
          allPreds).matches'.map (fun m => m.predIndex)).map
          (fun i => allPreds.getD i default) := by
      rw [List.map_map]
      refine List.map_congr_left ?_
      intro m hm
      exact (findMax_matches_bounds _ _ _ m hm).2.2.2.1
    have hnp := (findMax_one_one
      (metricsMatrix eqv judge allPreds allGolds) allGolds allPreds).2.1
    have hBnodup : ((List.range allPreds.length).filter
        (fun i => (finalState (metricsMatrix eqv judge allPreds allGolds)
          allGolds allPreds).matchedPred.contains i)).Nodup :=
      List.Nodup.filter _ (List.nodup_range _)
    obtain ⟨hgIff, hpIff, -, -⟩ :=
      finalState_inv (metricsMatrix eqv judge allPreds allGolds) allGolds
        allPreds
    have hAB : List.Perm
        ((findMaxWeightMatchingGen
          (metricsMatrix eqv judge allPreds allGolds) allGolds
          allPreds).matches'.map (fun m => m.predIndex))
        ((List.range allPreds.length).filter
          (fun i => (finalState (metricsMatrix eqv judge allPreds allGolds)
            allGolds allPreds).matchedPred.contains i)) := by
      refine List.perm_of_nodup_nodup_toFinset_eq hnp hBnodup ?_
      ext i
      simp only [List.mem_toFinset, List.mem_filter, List.mem_range]
      constructor
      · intro hi
        obtain ⟨m, hm, rfl⟩ := List.mem_map.mp hi
        refine ⟨(findMax_matches_bounds _ _ _ m hm).2.1, ?_⟩
        have : m.predIndex ∈ (finalState
            (metricsMatrix eqv judge allPreds allGolds) allGolds
            allPreds).matchedPred := (hpIff _).mpr ⟨m, hm, rfl⟩
        simpa using this
      · rintro ⟨hiP, hic⟩
        obtain ⟨m, hm, hmi⟩ := (hpIff i).mp (by simpa using hic)
        exact List.mem_map.mpr ⟨m, hm, hmi⟩
    have hA : List.Perm
        (((findMaxWeightMatchingGen
          (metricsMatrix eqv judge allPreds allGolds) allGolds
          allPreds).matches'.map (fun m => m.predIndex)) ++
          (findMaxWeightMatchingGen
            (metricsMatrix eqv judge allPreds allGolds) allGolds
            allPreds).unmatchedPredIndices)
        (List.range allPreds.length) := by
      refine (hAB.append_right _).trans ?_
      exact List.filter_append_perm _ _
    have step1 := (hp1.map (fun m => m.predItem)).append_right
      ((findMaxWeightMatchingGen
        (metricsMatrix eqv judge allPreds allGolds) allGolds
        allPreds).unmatchedPredIndices.map (fun i => allPreds.getD i default))
    rw [List.map_append, List.map_append] at step1
    refine step1.trans ?_
    rw [hitem, ← List.map_append]
    refine (hA.map (fun i => allPreds.getD i default)).trans ?_
    rw [map_getD_range]

/-- C1: in both task branches, the result satisfies `TPw` = the matching's
total weight, `FNw = G − TPw`, `FPw = P − TPw` (hence the conservation
equations), `precision = TPw / P` (0 if `P = 0`), `recall = TPw / G`
(0 if `G = 0`) and `f1 = 2·precision·recall / (precision + recall)`
(0 if the denominator is 0), where `G` and `P` are the flattened pool
sizes. -/
theorem claim_C1 :
    (∀ (judge : List String → List String → SemanticPairsG String)
        (srs : List (SentenceResultG String)),
      (calculateStandardSemanticMetricsEntity judge srs).TPw =
        (findMaxWeightMatchingGen
          (metricsMatrix entityEqv judge (flattenPreds srs) (flattenGolds srs))
          (flattenGolds srs) (flattenPreds srs)).totalWeight ∧
      (calculateStandardSemanticMetricsEntity judge srs).FNw =
        ((flattenGolds srs).length : ℚ) -
          (calculateStandardSemanticMetricsEntity judge srs).TPw ∧
      (calculateStandardSemanticMetricsEntity judge srs).FPw =
        ((flattenPreds srs).length : ℚ) -
          (calculateStandardSemanticMetricsEntity judge srs).TPw ∧
      (calculateStandardSemanticMetricsEntity judge srs).TPw +
          (calculateStandardSemanticMetricsEntity judge srs).FNw =
        ((flattenGolds srs).length : ℚ) ∧
      (calculateStandardSemanticMetricsEntity judge srs).TPw +
          (calculateStandardSemanticMetricsEntity judge srs).FPw =
        ((flattenPreds srs).length : ℚ) ∧
      (calculateStandardSemanticMetricsEntity judge srs).precision =
        (calculateStandardSemanticMetricsEntity judge srs).TPw /
          ((flattenPreds srs).length : ℚ) ∧
      ((flattenPreds srs).length = 0 →
        (calculateStandardSemanticMetricsEntity judge srs).precision = 0) ∧
      (calculateStandardSemanticMetricsEntity judge srs).recall' =
        (calculateStandardSemanticMetricsEntity judge srs).TPw /
          ((flattenGolds srs).length : ℚ) ∧
      ((flattenGolds srs).length = 0 →
        (calculateStandardSemanticMetricsEntity judge srs).recall' = 0) ∧
      (calculateStandardSemanticMetricsEntity judge srs).f1 =
        (if (calculateStandardSemanticMetricsEntity judge srs).precision +
            (calculateStandardSemanticMetricsEntity judge srs).recall' = 0
          then 0
          else 2 * ((calculateStandardSemanticMetricsEntity judge
              srs).precision *
            (calculateStandardSemanticMetricsEntity judge srs).recall') /
          ((calculateStandardSemanticMetricsEntity judge srs).precision +
            (calculateStandardSemanticMetricsEntity judge srs).recall'))) ∧
    (∀ srs : List (SentenceResultG CausalRelationship),
      (calculateStandardSemanticMetricsRel srs).TPw =
        (findMaxWeightMatchingGen
          (metricsMatrix areRelationshipsEqual
            (fun up ug => evaluateRelationshipSemanticMatches up ug)
            (flattenPreds srs) (flattenGolds srs))
          (flattenGolds srs) (flattenPreds srs)).totalWeight ∧
      (calculateStandardSemanticMetricsRel srs).FNw =
        ((flattenGolds srs).length : ℚ) -
          (calculateStandardSemanticMetricsRel srs).TPw ∧
      (calculateStandardSemanticMetricsRel srs).FPw =
        ((flattenPreds srs).length : ℚ) -
          (calculateStandardSemanticMetricsRel srs).TPw ∧
      (calculateStandardSemanticMetricsRel srs).TPw +
          (calculateStandardSemanticMetricsRel srs).FNw =
        ((flattenGolds srs).length : ℚ) ∧
      (calculateStandardSemanticMetricsRel srs).TPw +
          (calculateStandardSemanticMetricsRel srs).FPw =
        ((flattenPreds srs).length : ℚ) ∧
      (calculateStandardSemanticMetricsRel srs).precision =
        (calculateStandardSemanticMetricsRel srs).TPw /
          ((flattenPreds srs).length : ℚ) ∧
      ((flattenPreds srs).length = 0 →
        (calculateStandardSemanticMetricsRel srs).precision = 0) ∧
      (calculateStandardSemanticMetricsRel srs).recall' =
        (calculateStandardSemanticMetricsRel srs).TPw /
          ((flattenGolds srs).length : ℚ) ∧
      ((flattenGolds srs).length = 0 →
        (calculateStandardSemanticMetricsRel srs).recall' = 0) ∧
      (calculateStandardSemanticMetricsRel srs).f1 =
        (if (calculateStandardSemanticMetricsRel srs).precision +
            (calculateStandardSemanticMetricsRel srs).recall' = 0
          then 0
          else 2 * ((calculateStandardSemanticMetricsRel srs).precision *
            (calculateStandardSemanticMetricsRel srs).recall') /
          ((calculateStandardSemanticMetricsRel srs).precision +
            (calculateStandardSemanticMetricsRel srs).recall'))) := by
  constructor
  · intro judge srs
    exact calcCore_arith entityEqv judge (flattenPreds srs) (flattenGolds srs)
  · intro srs
    exact calcCore_arith areRelationshipsEqual
      (fun up ug => evaluateRelationshipSemanticMatches up ug)
      (flattenPreds srs) (flattenGolds srs)

/-- C2: the four categorised arrays partition the predicted pool: their
concatenation is a permutation of the flattened predicted pool (so every
predicted item, counted with multiplicity by pool position, lands in
exactly one array) and their lengths sum to `P`. -/
theorem claim_C2 :
    (∀ (judge : List String → List String → SemanticPairsG String)
        (srs : List (SentenceResultG String)),
      List.Perm
        ((calculateStandardSemanticMetricsEntity judge srs).exact ++
          (calculateStandardSemanticMetricsEntity judge srs).semantic ++
          (calculateStandardSemanticMetricsEntity judge srs).part ++
          (calculateStandardSemanticMetricsEntity judge srs).noMatch)
        (flattenPreds srs) ∧
      (calculateStandardSemanticMetricsEntity judge srs).exact.length +
        (calculateStandardSemanticMetricsEntity judge srs).semantic.length +
        (calculateStandardSemanticMetricsEntity judge srs).part.length +
        (calculateStandardSemanticMetricsEntity judge srs).noMatch.length =
        (flattenPreds srs).length) ∧
    (∀ srs : List (SentenceResultG CausalRelationship),
      List.Perm
        ((calculateStandardSemanticMetricsRel srs).exact ++
          (calculateStandardSemanticMetricsRel srs).semantic ++
          (calculateStandardSemanticMetricsRel srs).part ++
          (calculateStandardSemanticMetricsRel srs).noMatch)
        (flattenPreds srs) ∧
      (calculateStandardSemanticMetricsRel srs).exact.length +
        (calculateStandardSemanticMetricsRel srs).semantic.length +
        (calculateStandardSemanticMetricsRel srs).part.length +
        (calculateStandardSemanticMetricsRel srs).noMatch.length =
        (flattenPreds srs).length) := by
  constructor
  · intro judge srs
    have hp := calcCore_partition entityEqv judge (flattenPreds srs)
      (flattenGolds srs)
    refine ⟨hp, ?_⟩
    have hl := hp.length_eq
    simp only [List.length_append] at hl
    exact hl
  · intro srs
    have hp := calcCore_partition areRelationshipsEqual
      (fun up ug => evaluateRelationshipSemanticMatches up ug)
      (flattenPreds srs) (flattenGolds srs)
    refine ⟨hp, ?_⟩
    have hl := hp.length_eq
    simp only [List.length_append] at hl
    exact hl

/-- C10: for every weight matrix with cells in {0, 0.5, 0.75, 1} the
greedy matching's total weight lies in `[0, min(G, P)]`; consequently in
every pipeline result `FNw ≥ 0`, `FPw ≥ 0` and precision, recall and f1
all lie in `[0, 1]`. -/
theorem claim_C10 :
    (∀ (w : Nat → Nat → ℚ) (golds preds : List String),
      (∀ g p, g < golds.length → p < preds.length → cellOK (w g p)) →
      0 ≤ (findMaxWeightMatching w golds preds).totalWeight ∧
        (findMaxWeightMatching w golds preds).totalWeight ≤
          ((min golds.length preds.length : Nat) : ℚ)) ∧
    (∀ (judge : List String → List String → SemanticPairsG String)
        (srs : List (SentenceResultG String)),
      0 ≤ (calculateStandardSemanticMetricsEntity judge srs).FNw ∧
      0 ≤ (calculateStandardSemanticMetricsEntity judge srs).FPw ∧
      0 ≤ (calculateStandardSemanticMetricsEntity judge srs).precision ∧
      (calculateStandardSemanticMetricsEntity judge srs).precision ≤ 1 ∧
      0 ≤ (calculateStandardSemanticMetricsEntity judge srs).recall' ∧
      (calculateStandardSemanticMetricsEntity judge srs).recall' ≤ 1 ∧
      0 ≤ (calculateStandardSemanticMetricsEntity judge srs).f1 ∧
      (calculateStandardSemanticMetricsEntity judge srs).f1 ≤ 1) ∧
    (∀ srs : List (SentenceResultG CausalRelationship),
      0 ≤ (calculateStandardSemanticMetricsRel srs).FNw ∧
      0 ≤ (calculateStandardSemanticMetricsRel srs).FPw ∧
      0 ≤ (calculateStandardSemanticMetricsRel srs).precision ∧
      (calculateStandardSemanticMetricsRel srs).precision ≤ 1 ∧
      0 ≤ (calculateStandardSemanticMetricsRel srs).recall' ∧
      (calculateStandardSemanticMetricsRel srs).recall' ≤ 1 ∧
      0 ≤ (calculateStandardSemanticMetricsRel srs).f1 ∧
      (calculateStandardSemanticMetricsRel srs).f1 ≤ 1) := by
  refine ⟨?_, ?_, ?_⟩
  · intro w golds preds hcells
    exact findMax_totalWeight_bounds w golds preds hcells
  · intro judge srs
    exact calcCore_bounds entityEqv judge (flattenPreds srs) (flattenGolds srs)
  · intro srs
    exact calcCore_bounds areRelationshipsEqual
      (fun up ug => evaluateRelationshipSemanticMatches up ug)
      (flattenPreds srs) (flattenGolds srs)

/-! ## Lemmas about `extractJsonFromResponse`

The recursive scanners are related to position-based descriptions: the
leftmost match position of each pattern anchor, expressed with
`List.range` and `List.find?`. -/

theorem firstPos_nil (f : List Char → Bool) : firstPos f [] = none := rfl

theorem firstPos_cons_pos {f : List Char → Bool} {c : Char} {cs : List Char}
    (h : f (c :: cs) = true) : firstPos f (c :: cs) = some 0 := by
  rw [firstPos, List.length_cons, List.range_succ_eq_map, List.find?_cons]
  simp only [List.drop_zero, h]

theorem firstPos_cons_neg {f : List Char → Bool} {c : Char} {cs : List Char}
    (h : f (c :: cs) = false) :
    firstPos f (c :: cs) = (firstPos f cs).map (fun i => i + 1) := by
  rw [firstPos, List.length_cons, List.range_succ_eq_map, List.find?_cons]
  simp only [List.drop_zero, h]
  rw [List.find?_map]
  rw [firstPos]
  congr 1

theorem firstPos_some_lt {f : List Char → Bool} {cl : List Char} {i : Nat}
    (h : firstPos f cl = some i) : i < cl.length ∧ f (cl.drop i) = true := by
  rw [firstPos] at h
  obtain ⟨h1, h2, -⟩ := range_find?_some h
  exact ⟨h1, h2⟩

theorem firstPos_none {f : List Char → Bool} {cl : List Char}
    (h : firstPos f cl = none) (hnil : f [] = false) :
    ∀ j, f (cl.drop j) = false := by
  intro j
  by_cases hj : j < cl.length
  · exact Bool.eq_false_iff.mpr
      (List.find?_eq_none.mp h j (List.mem_range.mpr hj))
  · rw [List.drop_eq_nil_of_le (Nat.le_of_not_lt hj)]
    exact hnil

/-- A scanner that returns the elements before the first suffix satisfying
`f` equals the positional description. -/
theorem scanUntil_eq (f : List Char → Bool)
    (impl : List Char → Option (List Char)) (h0 : impl [] = none)
    (hcons : ∀ c cs, impl (c :: cs) =
      if f (c :: cs) = true then some []
      else (impl cs).map (fun l => c :: l)) :
    ∀ cl, impl cl = (firstPos f cl).map (fun j => cl.take j) := by
  intro cl
  induction cl with
  | nil => rw [h0, firstPos_nil]; rfl
  | cons c cs ih =>
      rw [hcons c cs]
      by_cases hf : f (c :: cs) = true
      · rw [if_pos hf, firstPos_cons_pos hf]
        rfl
      · rw [if_neg hf, firstPos_cons_neg (Bool.eq_false_iff.mpr hf), ih,
          Option.map_map, Option.map_map]
        rfl

theorem takeUntilFence_eq (cl : List Char) :
    takeUntilFence cl = (firstPos fenceAt cl).map (fun j => cl.take j) :=
  scanUntil_eq fenceAt takeUntilFence rfl (fun _ _ => rfl) cl

theorem takeUntilRBrace_eq (cl : List Char) :
    takeUntilRBrace cl =
      (firstPos (startsWith rbrace) cl).map (fun j => cl.take j) :=
  scanUntil_eq (startsWith rbrace) takeUntilRBrace rfl (fun _ _ => rfl) cl

theorem braceFragmentAux_none (cl : List Char)
    (h : ∀ j, startsWith rbrace (cl.drop j) = false) :
    braceFragmentAux cl = none := by
  induction cl with
  | nil => rfl
  | cons c cs ih =>
      have hcs : ∀ j, startsWith rbrace (cs.drop j) = false := fun j => h (j + 1)
      rw [braceFragmentAux]
      split
      · rw [takeUntilRBrace_eq]
        have hfp : firstPos (startsWith rbrace) cs = none := by
          rw [firstPos, List.find?_eq_none]
          intro j hj
          rw [hcs j]
          simp
        rw [hfp]
        exact ih hcs
      · exact ih hcs

theorem take_at_rbrace {cs : List Char} {k : Nat} (_hk : k < cs.length)
    (hr : startsWith rbrace (cs.drop k) = true) :
    cs.take (k + 1) = cs.take k ++ [rbrace] := by
  rw [List.take_succ]
  congr 1
  rcases hd : cs.drop k with - | ⟨r, rest⟩
  · rw [hd] at hr
    exact absurd hr (by simp [startsWith])
  · have : cs[k]? = some r := by
      rw [← List.head?_drop, hd]
      rfl
    rw [this]
    rw [hd] at hr
    have : r = rbrace := by
      have := hr
      simp only [startsWith] at this
      exact eq_of_beq this
    rw [this]
    rfl

theorem braceFragmentAux_eq (cl : List Char) :
    braceFragmentAux cl = spec_fragment cl := by
  induction cl with
  | nil => rfl
  | cons c cs ih =>
      rw [braceFragmentAux]
      by_cases hc : (c == lbrace) = true
      · rw [if_pos hc]
        have hc2 : c = lbrace := eq_of_beq hc
        have hfp : firstPos (startsWith lbrace) (c :: cs) = some 0 :=
          firstPos_cons_pos (by simp [startsWith, hc])
        have hspec : spec_fragment (c :: cs) =
            (match firstPos (startsWith rbrace) cs with
            | none => none
            | some k => some ((c :: cs).take (k + 2))) := by
          rw [spec_fragment, hfp]
          rfl
        rw [hspec, takeUntilRBrace_eq]
        rcases hk : firstPos (startsWith rbrace) cs with - | k
        · exact braceFragmentAux_none cs (firstPos_none hk rfl)
        · obtain ⟨hklt, hkr⟩ := firstPos_some_lt hk
          show some (lbrace :: (cs.take k ++ [rbrace])) =
            some (c :: cs.take (k + 1))
          rw [take_at_rbrace hklt hkr, hc2]
      · rw [if_neg hc]
        have hfp : firstPos (startsWith lbrace) (c :: cs) =
            (firstPos (startsWith lbrace) cs).map (fun i => i + 1) := by
          refine firstPos_cons_neg ?_
          simp only [startsWith]
          exact Bool.eq_false_iff.mpr hc
        have hspec : spec_fragment (c :: cs) = spec_fragment cs := by
          rw [spec_fragment, spec_fragment, hfp]
          rcases hi : firstPos (startsWith lbrace) cs with - | i
          · rfl
          · rfl
        rw [hspec]
        exact ih

theorem firstPos_eq_none {f : List Char → Bool} {cl : List Char}
    (h : ∀ j, f (cl.drop j) = false) : firstPos f cl = none := by
  rw [firstPos, List.find?_eq_none]
  intro j hj
  rw [h j]
  simp

theorem fenceAt_cons_ne {c : Char} {cs : List Char}
    (h : (btick == c) = false) : fenceAt (c :: cs) = false := by
  rw [fenceAt, fenceChars]
  simp [List.isPrefixOf, h]

/-- If no fence starts at offset 2 or later, the code-block scanner fails:
any fence found at offset 0 or 1 has no closing fence, and retrying at
later offsets finds nothing. -/
theorem codeBlockAux_none (cl : List Char)
    (h : ∀ i, 2 ≤ i → fenceAt (cl.drop i) = false) :
    codeBlockAux cl = none := by
  induction cl with
  | nil => rfl
  | cons c cs ih =>
      have hcs : ∀ i, 2 ≤ i → fenceAt (cs.drop i) = false := by
        intro i hi
        exact h (i + 1) (by omega)
      rw [codeBlockAux]
      split
      case isTrue hf =>
        have hrest : takeUntilFence
            (if jsonChars.isPrefixOf (cs.drop 2) then (cs.drop 2).drop 4
              else cs.drop 2) = none := by
          rw [takeUntilFence_eq]
          have : firstPos fenceAt
              (if jsonChars.isPrefixOf (cs.drop 2) then (cs.drop 2).drop 4
                else cs.drop 2) = none := by
            apply firstPos_eq_none
            intro j
            split
            · rw [List.drop_drop, List.drop_drop]
              exact hcs (2 + (4 + j)) (by omega)
            · rw [List.drop_drop]
              exact hcs (2 + j) (by omega)
          rw [this]
          rfl
        show (match takeUntilFence
            (if jsonChars.isPrefixOf (cs.drop 2) then (cs.drop 2).drop 4
              else cs.drop 2) with
          | some content => some (String.mk (trimChars content))
          | none => codeBlockAux cs) = none
        rw [hrest]
        exact ih hcs
      case isFalse hf => exact ih hcs

theorem codeBlockAux_eq (cl : List Char) :
    codeBlockAux cl = spec_codeBlock cl := by
  induction cl with
  | nil => rfl
  | cons c cs ih =>
      rw [codeBlockAux]
      by_cases hf : fenceAt (c :: cs) = true
      · rw [if_pos hf]
        have hfp : firstPos fenceAt (c :: cs) = some 0 := firstPos_cons_pos hf
        have hspec : spec_codeBlock (c :: cs) =
            (match firstPos fenceAt
                (if jsonChars.isPrefixOf (cs.drop 2) then (cs.drop 2).drop 4
                  else cs.drop 2) with
            | none => none
            | some j => some (String.mk (trimChars
                ((if jsonChars.isPrefixOf (cs.drop 2) then (cs.drop 2).drop 4
                  else cs.drop 2).take j)))) := by
          rw [spec_codeBlock, hfp]
          rfl
        rw [hspec]
        show (match takeUntilFence
            (if jsonChars.isPrefixOf (cs.drop 2) then (cs.drop 2).drop 4
              else cs.drop 2) with
          | some content => some (String.mk (trimChars content))
          | none => codeBlockAux cs) = _
        rw [takeUntilFence_eq]
        rcases hj : firstPos fenceAt
            (if jsonChars.isPrefixOf (cs.drop 2) then (cs.drop 2).drop 4
              else cs.drop 2) with - | j
        · show codeBlockAux cs = none
          have hno := firstPos_none hj rfl
          apply codeBlockAux_none
          intro i hi
          by_cases hjson : jsonChars.isPrefixOf (cs.drop 2) = true
          · rw [if_pos hjson] at hno
            by_cases h6 : 6 ≤ i
            · have := hno (i - 6)
              rw [List.drop_drop, List.drop_drop] at this
              have e : 2 + (4 + (i - 6)) = i := by omega
              rw [e] at this
              exact this
            · obtain ⟨t, ht⟩ := List.isPrefixOf_iff_prefix.mp hjson
              have hdrop : ∀ m, cs.drop (2 + m) = (jsonChars ++ t).drop m := by
                intro m
                rw [ht, List.drop_drop]
              have hi2 : i = 2 ∨ i = 3 ∨ i = 4 ∨ i = 5 := by omega
              rcases hi2 with rfl | rfl | rfl | rfl
              · have h0 : cs.drop 2 = (jsonChars ++ t).drop 0 := hdrop 0
                rw [h0]
                exact fenceAt_cons_ne (by decide)
              · have h1 : cs.drop 3 = (jsonChars ++ t).drop 1 := hdrop 1
                rw [h1]
                exact fenceAt_cons_ne (by decide)
              · have h2 : cs.drop 4 = (jsonChars ++ t).drop 2 := hdrop 2
                rw [h2]
                exact fenceAt_cons_ne (by decide)
              · have h3 : cs.drop 5 = (jsonChars ++ t).drop 3 := hdrop 3
                rw [h3]
                exact fenceAt_cons_ne (by decide)
          · rw [if_neg hjson] at hno
            have := hno (i - 2)
            rw [List.drop_drop] at this
            have e : 2 + (i - 2) = i := by omega
            rw [e] at this
            exact this
        · rfl
      · rw [if_neg hf]
        have hfp : firstPos fenceAt (c :: cs) =
            (firstPos fenceAt cs).map (fun i => i + 1) :=
          firstPos_cons_neg (Bool.eq_false_iff.mpr hf)
        have hspec : spec_codeBlock (c :: cs) = spec_codeBlock cs := by
          rw [spec_codeBlock, spec_codeBlock, hfp]
          rcases hi : firstPos fenceAt cs with - | i
          · rfl
          · rfl
        rw [hspec]
        exact ih

theorem spec_phraseObject_shift {c : Char} {cs : List Char}
    (hpf : phraseFragAt (c :: cs) = none) :
    spec_phraseObject (c :: cs) = spec_phraseObject cs := by
  have hfp : firstPos (fun l => (phraseFragAt l).isSome) (c :: cs) =
      (firstPos (fun l => (phraseFragAt l).isSome) cs).map (fun i => i + 1) :=
    firstPos_cons_neg (by rw [hpf]; rfl)
  rw [spec_phraseObject, spec_phraseObject, hfp]
  rcases hi : firstPos (fun l => (phraseFragAt l).isSome) cs with - | i
  · rfl
  · rfl

theorem phraseObjectAux_eq (cl : List Char) :
    phraseObjectAux cl = spec_phraseObject cl := by
  induction cl with
  | nil => rfl
  | cons c cs ih =>
      rw [phraseObjectAux]
      rcases hm : matchPhraseAt (c :: cs) with - | rest
      · have hpf : phraseFragAt (c :: cs) = none := by
          rw [phraseFragAt, hm]
          rfl
        rw [spec_phraseObject_shift hpf]
        exact ih
      · show (match braceFragmentAux rest with
          | some frag => some (String.mk (trimChars frag))
          | none => phraseObjectAux cs) = spec_phraseObject (c :: cs)
        rcases hb : braceFragmentAux rest with - | frag
        · have hpf : phraseFragAt (c :: cs) = none := by
            rw [phraseFragAt, hm]
            show spec_fragment rest = none
            rw [← braceFragmentAux_eq]
            exact hb
          rw [spec_phraseObject_shift hpf]
          exact ih
        · have hpf : phraseFragAt (c :: cs) = some frag := by
            rw [phraseFragAt, hm]
            show spec_fragment rest = some frag
            rw [← braceFragmentAux_eq]
            exact hb
          have hfp : firstPos (fun l => (phraseFragAt l).isSome) (c :: cs) =
              some 0 :=
            firstPos_cons_pos (by rw [hpf]; rfl)
          rw [spec_phraseObject, hfp]
          show some (String.mk (trimChars frag)) =
            (phraseFragAt (c :: cs)).map (fun fr => String.mk (trimChars fr))
          rw [hpf]
          rfl

theorem braceFragmentWithQuote_eq (cl : List Char) :
    braceFragmentWithQuote cl = spec_braceQuote cl := by
  rw [braceFragmentWithQuote, spec_braceQuote, braceFragmentAux_eq]

/-- **C8** (amended): `extractJsonFromResponse` tries the three strategies
in order — (a) fenced code block, (b) brace fragment with a quote
character, (c) brace fragment after a known phrase — and returns the
first success, `none` when all fail; but in (b) and (c) the fragment runs
from the first opening brace to the *first* following closing brace
(the regex `(\x7b[\s\S]*?\x7d)` is lazy), which need not be a balanced
top-level object. -/
theorem claim_C8 (response : String) :
    extractJsonFromResponse response = extractJson_spec response.toList := by
  have hcb := codeBlockAux_eq response.toList
  have hbq := braceFragmentWithQuote_eq response.toList
  have hpo := phraseObjectAux_eq response.toList
  rw [extractJsonFromResponse, extractJson_spec]
  rw [hcb, hbq, hpo]

/-- **C8** counterexample: on `{"a":{"b":1}}` the first
top-level object is the whole (balanced) string and contains a quote, yet
the function returns the unbalanced prefix ending at the *first* closing
brace — refuting "returns the first top-level {...} object". -/
theorem claim_C8_counterexample :
    firstTopLevelObject ("\x7b\"a\":\x7b\"b\":1\x7d\x7d").toList
        = some ("\x7b\"a\":\x7b\"b\":1\x7d\x7d").toList ∧
    extractJsonFromResponse "\x7b\"a\":\x7b\"b\":1\x7d\x7d"
        = some "\x7b\"a\":\x7b\"b\":1\x7d" ∧
    ("\x7b\"a\":\x7b\"b\":1\x7d" : String) ≠ "\x7b\"a\":\x7b\"b\":1\x7d\x7d" := by
  refine ⟨rfl, by rfl, by decide⟩

/-- **C9**. `parseSemanticEvaluationResponse` is total (the embedding is a
Lean function, every `JSON.parse` failure being modelled by `jp` returning
`none`) and degrades to empty result sets instead of propagating errors:
when extraction fails the raw response is parsed; when parsing the
extracted candidate fails the raw response is parsed; when every parse
fails, or the parsed value is not a non-null object, both sets are empty;
otherwise each set is the corresponding field when it is an array and
empty when the field is missing or not an array. -/
theorem claim_C9 (jp : String → Option Json) (response : String) :
    (extractJsonFromResponse response = none →
      parsedJson jp response = jp response) ∧
    (∀ extracted, extractJsonFromResponse response = some extracted →
      jp extracted = none → parsedJson jp response = jp response) ∧
    (∀ extracted j, extractJsonFromResponse response = some extracted →
      jp extracted = some j → parsedJson jp response = some j) ∧
    (parsedJson jp response = none →
      parseSemanticEvaluationResponse jp response = ⟨[], []⟩) ∧
    (∀ j, parsedJson jp response = some j → j.isNonNullObject = false →
      parseSemanticEvaluationResponse jp response = ⟨[], []⟩) ∧
    (∀ j, parsedJson jp response = some j → j.isNonNullObject = true →
      parseSemanticEvaluationResponse jp response =
        ⟨arrOrEmpty (j.getField "semantic_match_pairs"),
          arrOrEmpty (j.getField "partial_match_pairs")⟩) ∧
    (∀ o : Option Json, (∀ xs, o ≠ some (Json.arr xs)) → arrOrEmpty o = []) := by
  refine ⟨?_, ?_, ?_, ?_, ?_, ?_, ?_⟩
  · intro hx
    rw [parsedJson, hx]
  · intro extracted hx hj
    rw [parsedJson, hx]
    show (match jp extracted with
      | some j => some j
      | none => jp response) = jp response
    rw [hj]
  · intro extracted j hx hj
    rw [parsedJson, hx]
    show (match jp extracted with
      | some j => some j
      | none => jp response) = some j
    rw [hj]
  · intro hp
    rw [parseSemanticEvaluationResponse, hp]
  · intro j hp hno
    rw [parseSemanticEvaluationResponse, hp]
    show (if j.isNonNullObject then _ else (⟨[], []⟩ : SemanticMatchingResultJ))
      = (⟨[], []⟩ : SemanticMatchingResultJ)
    rw [hno]
    rfl
  · intro j hp hyes
    rw [parseSemanticEvaluationResponse, hp]
    show (if j.isNonNullObject then
        (⟨arrOrEmpty (j.getField "semantic_match_pairs"),
          arrOrEmpty (j.getField "partial_match_pairs")⟩ :
            SemanticMatchingResultJ)
      else ⟨[], []⟩) = _
    rw [hyes]
    rfl
  · intro o ho
    rcases o with - | j
    · rfl
    · rcases j with - | b | q | t | xs | fields
      · rfl
      · rfl
      · rfl
      · rfl
      · exact absurd rfl (ho xs)
      · rfl

end CEE
